import Mathlib

/-!
Verification of the DM3/DM4 tag-file codec of `nionswift-io`
(`nionswift_plugin/DM_IO/parse_dm3.py` and
`nionswift_plugin/DM_IO/dm3_image_utils.py`) against its natural-language
specification.

Modelling conventions (shallow embedding):
* a binary stream is a list of byte values (`Nat`, each < 256) together with a
  position; `f.write` overwrites at the position and extends at the end,
  `f.seek(n)` sets the position, `f.seek(0, 2)` sets it to end-of-stream;
* the per-type payload writers of `parse_dm3.py` perform only sequential
  `f.write` calls (no seek), so they are embedded as pure functions returning
  the byte list written plus the "header size" word count the Python function
  returns; the functions that seek (`dm_write_tag_data`, `dm_write_tag_entry`,
  `dm_write_header`) are embedded operationally on the stream state;
* Python `struct.pack("<…")` of an integer is the two's-complement
  little-endian byte string and raises for out-of-range values (embedded as
  `Option`); IEEE-754 floats are embedded by their bit patterns, on which
  `pack`/`unpack` act as the identity;
* fallible Python code (assert, KeyError, struct.error, …) is embedded with
  `Option`: `none` is an exception escaping the call.
-/

namespace DM

/-! ## Byte-string primitives -/

/-- Little-endian byte string of width `w` for the value `n % 256^w`
(the byte order of `struct.pack` with the `<` prefix). -/
def leBytes : Nat → Nat → List Nat
  | 0, _ => []
  | w + 1, n => n % 256 :: leBytes w (n / 256)

/-- Big-endian byte string of width `w` (the byte order of `struct.pack`
with the `>` prefix used for all size/count fields). -/
def beBytes (w n : Nat) : List Nat := (leBytes w n).reverse

/-- Value of a little-endian byte string. -/
def leVal : List Nat → Nat
  | [] => 0
  | b :: bs => b + 256 * leVal bs

/-- Value of a big-endian byte string. -/
def beVal (l : List Nat) : Nat := l.foldl (fun a b => a * 256 + b) 0

@[simp] theorem leBytes_length (w n : Nat) : (leBytes w n).length = w := by
  induction w generalizing n with
  | zero => rfl
  | succ w ih => simp [leBytes, ih]

@[simp] theorem beBytes_length (w n : Nat) : (beBytes w n).length = w := by
  simp [beBytes]

theorem leVal_leBytes (w n : Nat) (h : n < 256 ^ w) : leVal (leBytes w n) = n := by
  induction w generalizing n with
  | zero => simp [pow_zero] at h; simp [leBytes, leVal, h]
  | succ w ih =>
      have hlt : n / 256 < 256 ^ w := by
        rw [Nat.div_lt_iff_lt_mul (by norm_num)]
        calc n < 256 ^ (w + 1) := h
        _ = 256 ^ w * 256 := by ring
      simp [leBytes, leVal, ih _ hlt, Nat.mod_add_div]

theorem beBytes_succ (w n : Nat) :
    beBytes (w + 1) n = beBytes w (n / 256) ++ [n % 256] := by
  simp [beBytes, leBytes]

theorem beVal_append_singleton (l : List Nat) (b : Nat) :
    beVal (l ++ [b]) = beVal l * 256 + b := by
  simp [beVal]

theorem beVal_beBytes (w n : Nat) (h : n < 256 ^ w) : beVal (beBytes w n) = n := by
  induction w generalizing n with
  | zero => simp [pow_zero] at h; simp [beBytes, leBytes, beVal, h]
  | succ w ih =>
      have hlt : n / 256 < 256 ^ w := by
        rw [Nat.div_lt_iff_lt_mul (by norm_num)]
        calc n < 256 ^ (w + 1) := h
        _ = 256 ^ w * 256 := by ring
      rw [beBytes_succ, beVal_append_singleton, ih _ hlt]
      omega

/-! ## Two's-complement encoding of Python integers

`struct.pack("<c", v)` for an integer format character of byte width `w`
writes the two's-complement little-endian representation and raises
`struct.error` when `v` is out of range. -/

/-- Two's-complement little-endian byte string of an integer at byte width
`w` (callers guard the range as `struct.pack` does). -/
def packInt (w : Nat) (v : Int) : List Nat :=
  leBytes w ((v % ((2 : Int) ^ (8 * w))).toNat)

/-- Decode a signed little-endian byte string (two's complement), as
`struct.unpack` of a signed format character does. -/
def unpackSigned (w : Nat) (l : List Nat) : Int :=
  if leVal l < 2 ^ (8 * w - 1) then (leVal l : Int) else (leVal l : Int) - 2 ^ (8 * w)

/-- Decode an unsigned little-endian byte string. -/
def unpackUnsigned (l : List Nat) : Int := (leVal l : Int)

theorem two_pow_eq (w : Nat) : ((2 : Int) ^ (8 * w)) = ((256 : Nat) ^ w : Nat) := by
  push_cast
  rw [pow_mul]
  norm_num

theorem packInt_unsigned (w : Nat) (v : Int) (h0 : 0 ≤ v) (h1 : v < 2 ^ (8 * w)) :
    unpackUnsigned (packInt w v) = v := by
  have hM := two_pow_eq w
  have hmod : v % ((2 : Int) ^ (8 * w)) = v := Int.emod_eq_of_lt h0 h1
  have htn : (v % ((2 : Int) ^ (8 * w))).toNat = v.toNat := by rw [hmod]
  have hlt : v.toNat < 256 ^ w := by omega
  simp only [unpackUnsigned, packInt, htn, leVal_leBytes _ _ hlt]
  omega

theorem packInt_signed (w : Nat) (v : Int) (hw : 0 < w)
    (h0 : -(2 ^ (8 * w - 1)) ≤ v) (h1 : v < 2 ^ (8 * w - 1)) :
    unpackSigned w (packInt w v) = v := by
  have hM := two_pow_eq w
  have hH : ((2 ^ (8 * w - 1) : Nat) : Int) = (2 : Int) ^ (8 * w - 1) := by
    push_cast; ring
  have hMH : (2 : Int) ^ (8 * w) = 2 ^ (8 * w - 1) * 2 := by
    rw [← pow_succ]
    congr 1
    omega
  rcases le_or_lt 0 v with hv | hv
  · have hmod : v % ((2 : Int) ^ (8 * w)) = v := by
      apply Int.emod_eq_of_lt hv
      omega
    have htn : (v % ((2 : Int) ^ (8 * w))).toNat = v.toNat := by rw [hmod]
    have hlt : v.toNat < 256 ^ w := by omega
    simp only [unpackSigned, packInt, htn, leVal_leBytes _ _ hlt]
    have hsmall : v.toNat < 2 ^ (8 * w - 1) := by omega
    simp only [hsmall, if_pos]
    omega
  · have hmod : v % ((2 : Int) ^ (8 * w)) = v + 2 ^ (8 * w) := by
      have h2 : (v + 2 ^ (8 * w)) % ((2 : Int) ^ (8 * w)) = v % ((2 : Int) ^ (8 * w)) := by
        simp [Int.add_mul_emod_self_left]
      rw [← h2]
      apply Int.emod_eq_of_lt (by omega) (by omega)
    have htn : (v % ((2 : Int) ^ (8 * w))).toNat = (v + 2 ^ (8 * w)).toNat := by rw [hmod]
    have hlt : (v + 2 ^ (8 * w)).toNat < 256 ^ w := by omega
    simp only [unpackSigned, packInt, htn, leVal_leBytes _ _ hlt]
    have hbig : ¬ ((v + 2 ^ (8 * w)).toNat < 2 ^ (8 * w - 1)) := by omega
    simp only [hbig, if_neg, not_false_iff]
    omega

/-! ## Format version and size fields

`parse_dm3.py` keeps globals `version` (3 or 4) and `size_type` (struct char
`L` = 4-byte or `Q` = 8-byte); all size/count fields are written with
`"> %c" % size_type`, i.e. big-endian at the version's width. -/

/-- DM file format version: 3 uses 32-bit size fields, 4 uses 64-bit ones. -/
inductive Ver where
  | v3
  | v4
  deriving DecidableEq, Repr

/-- Byte width of `size_type` (`L` is 4 bytes, `Q` is 8 bytes). -/
def sizeW : Ver → Nat
  | .v3 => 4
  | .v4 => 8

/-- Big-endian size-width field, `put_into_file(f, "> %c" % size_type, n)`. -/
def beW (ver : Ver) (n : Nat) : List Nat := beBytes (sizeW ver) n

@[simp] theorem beW_length (ver : Ver) (n : Nat) : (beW ver n).length = sizeW ver := by
  simp [beW]

/-! ## Type registry (`dm_simple_names` and lookups) -/

/-- The `dm_simple_names` table: (id, name, struct char) in source order.
The python-type lists are reflected in `get_structdmtypes` below. -/
def dm_simple_names : List (Nat × String × Char) :=
  [(8, "bool", 'b'),
   (2, "short", 'h'),
   (3, "long", 'i'),
   (4, "ushort", 'H'),
   (5, "uint", 'I'),
   (6, "float", 'f'),
   (7, "double", 'd'),
   (9, "char", 'b'),
   (10, "octet", 'b'),
   (11, "int64", 'q'),
   (12, "uint64", 'Q')]

/-- The `dm_complex_names` table. -/
def dm_complex_names : List (Nat × String) := [(18, "string"), (15, "struct"), (20, "array")]

/-- `get_dmtype_for_name`: first id in the simple table with that name, then
the complex table, else 0. -/
def get_dmtype_for_name (name : String) : Nat :=
  match (dm_simple_names.find? (fun e => e.2.1 = name)) with
  | some e => e.1
  | none =>
      match (dm_complex_names.find? (fun e => e.2 = name)) with
      | some e => e.1
      | none => 0

/-- `get_structchar_for_dmtype`: struct char of the first matching id, else
the empty string (embedded as `none`). -/
def get_structchar_for_dmtype (dm_type : Nat) : Option Char :=
  (dm_simple_names.find? (fun e => e.1 = dm_type)).map (fun e => e.2.2)

/-- `get_dmtype_for_structchar`: first id whose struct char matches, else -1. -/
def get_dmtype_for_structchar (struct_char : Char) : Int :=
  match (dm_simple_names.find? (fun e => e.2.2 = struct_char)) with
  | some e => (e.1 : Int)
  | none => -1

/-- `struct.calcsize` of a single format character (platform-independent
chars only; unknown characters are given width 0 and guarded by callers). -/
def calcsizeChar (c : Char) : Nat :=
  if c = 'b' ∨ c = 'B' then 1
  else if c = 'h' ∨ c = 'H' then 2
  else if c = 'i' ∨ c = 'I' ∨ c = 'f' ∨ c = 'l' ∨ c = 'L' then 4
  else if c = 'q' ∨ c = 'Q' ∨ c = 'd' then 8
  else 0

/-- Whether a format character is decoded as a signed integer. -/
def signedChar (c : Char) : Bool := c = 'b' ∨ c = 'h' ∨ c = 'i' ∨ c = 'q' ∨ c = 'l'

/-- Whether a format character denotes an IEEE float (embedded by pattern). -/
def floatChar (c : Char) : Bool := c = 'f' ∨ c = 'd'

/-- Native-alignment `struct.calcsize` of a list of format characters, as used
by `StructArray.bytelen` through `struct.calcsize(" ".join(typecodes))`:
each field is aligned to its own size and no trailing padding is added. -/
def calcsizeJoin (tcs : List Char) : Nat :=
  tcs.foldl (fun off c =>
    let sz := calcsizeChar c
    (if sz = 0 then off else sz * ((off + sz - 1) / sz)) + sz) 0

/-! ## Python values reaching the writer

The union of Python values that `dm_write_tag_root` / `dm_write_tag_data`
can be handed: ints, floats (by 64-bit pattern), bools, strings (by their
UTF-16 code units), `DataChunkWriter` (shape, item size, dtype char, flat
row-major element byte strings), `StructArray`, tuples, lists, dicts,
`None`, and an otherwise-unmapped numeric object (e.g. a numpy float32
scalar, by its 32-bit pattern). -/
inductive PyVal where
  | vint (v : Int)
  | vfloat (bits : Nat)
  | vbool (b : Bool)
  | vstr (units : List Nat)
  | vchunk (shape : List Nat) (itemsize : Nat) (tc : Char) (elems : List (List Nat))
  | vstructArray (tcs : List Char) (raw : List Nat)
  | vtuple (fields : List PyVal)
  | vlist (items : List PyVal)
  | vdict (entries : List (String × PyVal))
  | vnone
  | vother (bits : Nat)

/-- Check for Python `None` (`value is not None` tests). -/
def PyVal.isNone : PyVal → Bool
  | .vnone => true
  | _ => false

/-- Python truthiness (`1 if outdata else 0`, `.get("IsSequence", False)`),
where it is well defined for our value domain: `none` for a
`DataChunkWriter` of more than one element, whose `bool()` raises. -/
def pyTruthy : PyVal → Option Bool
  | .vint v => some (v ≠ 0)
  | .vfloat bits => some (¬ (bits = 0 ∨ bits = 2 ^ 63))
  | .vbool b => some b
  | .vstr units => some (units ≠ [])
  | .vchunk _ _ _ elems => if elems.length ≤ 1 then some (elems ≠ []) else none
  | .vstructArray _ _ => some true
  | .vtuple fields => some (!fields.isEmpty)
  | .vlist items => some (!items.isEmpty)
  | .vdict entries => some (!entries.isEmpty)
  | .vnone => some false
  | .vother bits => some (¬ (bits = 0 ∨ bits = 2 ^ 31))

/-- `get_structdmtypes_for_python_typeorobject`: (struct char, dm type id)
for a value.  Order of checks as in the source: the out-of-int32-range
integer check, then the `dm_simple_names` rows that carry python types
(bool, long=int, double=float; the uint row is shadowed by long), then
str / array-or-DataChunkWriter / tuple / StructArray, and finally the
warning fallback `(None, 6)`. -/
def get_structdmtypes (value : PyVal) : Option Char × Nat :=
  match value with
  | .vint v => if ¬ (-(2 ^ 31) < v ∧ v < 2 ^ 31 - 1) then (some 'q', 11) else (some 'i', 3)
  | .vbool _ => (some 'b', 8)
  | .vfloat _ => (some 'd', 7)
  | .vstr _ => (none, get_dmtype_for_name "array")
  | .vchunk _ _ _ _ => (none, get_dmtype_for_name "array")
  | .vtuple _ => (none, get_dmtype_for_name "struct")
  | .vstructArray _ _ => (none, get_dmtype_for_name "array")
  | _ => (none, 6)

/-! ## Primitive scalar codec (`standard_dm_read` / `standard_dm_write`)

`standard_dm_write` is `struct.pack("<" + structchar, v)`; it returns payload
header size 0.  `standard_dm_read` is `struct.unpack("<" + structchar, …)`.
Integer values are Python ints; float values are embedded by their bit
patterns at the type's own width, on which pack/unpack is the identity. -/

/-- Domain of values `struct.pack` accepts at a given registry id: the
two's-complement range for signed characters, `[0, 2^bits)` for unsigned
ones, and all patterns of the type's width for floats. -/
def inScalarDomain (id : Nat) (v : Int) : Bool :=
  match get_structchar_for_dmtype id with
  | none => false
  | some c =>
      let w := calcsizeChar c
      if signedChar c then decide (-(2 ^ (8 * w - 1)) ≤ v ∧ v < 2 ^ (8 * w - 1))
      else decide (0 ≤ v ∧ v < 2 ^ (8 * w))

/-- Bytes written by `dm_write_types[id]` (the closure made by
`standard_dm_write`) for a scalar value; `none` when `struct.pack` raises. -/
def standard_dm_write (id : Nat) (v : Int) : Option (List Nat) :=
  match get_structchar_for_dmtype id with
  | none => none
  | some c =>
      if inScalarDomain id v then some (packInt (calcsizeChar c) v) else none

/-- Value and payload header count produced by `dm_read_types[id]` (the
closure made by `standard_dm_read`) from a byte stream; consumes the
scalar's bytes and returns the remaining stream. -/
def standard_dm_read (id : Nat) (l : List Nat) : Option (Int × Nat × List Nat) :=
  match get_structchar_for_dmtype id with
  | none => none
  | some c =>
      let w := calcsizeChar c
      if w ≤ l.length then
        let v := if signedChar c then unpackSigned w (l.take w) else unpackUnsigned (l.take w)
        some (v, 0, l.drop w)
      else none

/-- `dm_write_bool`: writes `1 if outdata else 0` as one byte. -/
def dm_write_bool (outdata : PyVal) : Option (List Nat) :=
  (pyTruthy outdata).map (fun b => [if b then 1 else 0])

/-- `dm_read_bool`: reads one signed byte and returns `result != 0` with
payload header count 0. -/
def dm_read_bool (l : List Nat) : Option (Bool × Nat × List Nat) :=
  match l with
  | [] => none
  | b :: rest => some (unpackSigned 1 [b] ≠ 0, 0, rest)

theorem packInt_length (w : Nat) (v : Int) : (packInt w v).length = w := by
  simp [packInt]

theorem standard_roundtrip (id : Nat) (c : Char) (hc : get_structchar_for_dmtype id = some c)
    (hw : 0 < calcsizeChar c) (v : Int) (rest bs : List Nat)
    (hdom : inScalarDomain id v) (hbs : standard_dm_write id v = some bs) :
    standard_dm_read id (bs ++ rest) = some (v, 0, rest) := by
  unfold standard_dm_write at hbs
  rw [hc] at hbs
  simp only [hdom, if_true] at hbs
  injection hbs with hbs
  subst hbs
  have hlen : (packInt (calcsizeChar c) v).length = calcsizeChar c := packInt_length _ _
  unfold standard_dm_read
  rw [hc]
  have htake : (packInt (calcsizeChar c) v ++ rest).take (calcsizeChar c) = packInt (calcsizeChar c) v := by
    nth_rewrite 1 [← hlen]; exact List.take_left _ _
  have hdrop : (packInt (calcsizeChar c) v ++ rest).drop (calcsizeChar c) = rest := by
    nth_rewrite 1 [← hlen]; exact List.drop_left _ _
  have hle : calcsizeChar c ≤ (packInt (calcsizeChar c) v ++ rest).length := by
    rw [List.length_append, hlen]; omega
  simp only [hle, if_pos, htake, hdrop]
  unfold inScalarDomain at hdom
  rw [hc] at hdom
  rcases hsig : signedChar c with _ | _
  · simp only [hsig, if_neg, Bool.false_eq_true, not_false_iff, decide_eq_true_eq] at hdom
    simp only [hsig, Bool.false_eq_true, if_neg, not_false_iff]
    rw [packInt_unsigned _ _ hdom.1 hdom.2]
  · simp only [hsig, if_pos, decide_eq_true_eq] at hdom
    simp only [hsig, if_pos]
    rw [packInt_signed _ _ hw hdom.1 hdom.2]

/-- C3: for every primitive tag type id in the registry (2,3,4,5,6,7,8,9,10,
11,12) and every value representable at that type's fixed width, decoding
what the per-type writer encoded returns the original value
(`dm_read_types[id]` after `dm_write_types[id]`); for id 8 (bool), any
truthy or falsy input reads back as the corresponding `True`/`False`.
Float values are embedded by their bit patterns, on which
`struct.pack`/`struct.unpack` act as the identity for representable values. -/
theorem C3_primitive_roundtrip :
    (∀ id ∈ ([2, 3, 4, 5, 6, 7, 9, 10, 11, 12] : List Nat), ∀ v : Int, ∀ rest bs,
        inScalarDomain id v → standard_dm_write id v = some bs →
        standard_dm_read id (bs ++ rest) = some (v, 0, rest)) ∧
    (∀ x b rest bs, pyTruthy x = some b → dm_write_bool x = some bs →
        dm_read_bool (bs ++ rest) = some (b, 0, rest)) := by
  constructor
  · intro id hid v rest bs hdom hbs
    fin_cases hid
    · exact standard_roundtrip 2 'h' (by decide) (by decide) v rest bs hdom hbs
    · exact standard_roundtrip 3 'i' (by decide) (by decide) v rest bs hdom hbs
    · exact standard_roundtrip 4 'H' (by decide) (by decide) v rest bs hdom hbs
    · exact standard_roundtrip 5 'I' (by decide) (by decide) v rest bs hdom hbs
    · exact standard_roundtrip 6 'f' (by decide) (by decide) v rest bs hdom hbs
    · exact standard_roundtrip 7 'd' (by decide) (by decide) v rest bs hdom hbs
    · exact standard_roundtrip 9 'b' (by decide) (by decide) v rest bs hdom hbs
    · exact standard_roundtrip 10 'b' (by decide) (by decide) v rest bs hdom hbs
    · exact standard_roundtrip 11 'q' (by decide) (by decide) v rest bs hdom hbs
    · exact standard_roundtrip 12 'Q' (by decide) (by decide) v rest bs hdom hbs
  · intro x b rest bs hb hbs
    simp only [dm_write_bool, hb, Option.map_some'] at hbs
    injection hbs with hbs
    subst hbs
    cases b <;> simp [dm_read_bool, unpackSigned, leVal]

/-- Witness for C3 at id 3 (`long`, value -5) and a truthy bool input. -/
theorem C3_witness :
    standard_dm_read 3 ([251, 255, 255, 255] ++ [9]) = some (-5, 0, [9]) ∧
    dm_read_bool ([1] ++ [7]) = some (true, 0, [7]) :=
  ⟨C3_primitive_roundtrip.1 3 (by decide) (-5) [9] [251, 255, 255, 255] (by decide) (by decide),
   C3_primitive_roundtrip.2 (.vint 7) true [7] [1] (by decide) (by decide)⟩

/-! ## `DataChunkWriter.write` (chunked array writer) -/

/-- Product of a shape, `numpy.prod(shape)` (with `numpy.prod([]) == 1`). -/
def listProd (shape : List Nat) : Nat := shape.foldl (· * ·) 1

/-- The dtype-char fix in `DataChunkWriter.write`'s `match` statement:
`('l',4) ↦ 'i'`, `('l',8) ↦ 'q'`, `('L',4) ↦ 'I'`, `('L',8) ↦ 'Q'`,
anything else unchanged. -/
def platformFixChar (c : Char) (itemsize : Nat) : Char :=
  if c = 'l' ∧ itemsize = 4 then 'i'
  else if c = 'l' ∧ itemsize = 8 then 'q'
  else if c = 'L' ∧ itemsize = 4 then 'I'
  else if c = 'L' ∧ itemsize = 8 then 'Q'
  else c

/-- The chunk-size search loop of `DataChunkWriter.write`: walk the shape
from the innermost dimension outward, stopping (`break`) as soon as the next
dimension would push the chunk size over 64 MiB.  Returns
`(index_count, chunk_size)` from the initial accumulator. -/
def chunkLoop : List Nat → Nat × Nat → Nat × Nat
  | [], acc => acc
  | n :: rest, (ic, cs) =>
      if cs * n > 64 * 1024 * 1024 then (ic, cs)
      else chunkLoop rest (ic + 1, cs * n)

/-- `index_count` computed by `DataChunkWriter.write`. -/
def chunkIndexCount (shape : List Nat) : Nat := (chunkLoop shape.reverse (0, 1)).1

/-- `DataChunkWriter.write`: size-width dtype id, size-width element count,
then the flat data written chunk by chunk — one `f.write(data[index].tobytes())`
per `numpy.ndindex` over the leading `len(shape) - index_count` dimensions,
each writing the contiguous row-major slice of `chunk_size` elements.
Returns the bytes and the payload header size 2 (type, length);
`none` when the `assert dtype >= 0` fails. -/
def DataChunkWriter_write (ver : Ver) (shape : List Nat) (itemsize : Nat) (tc : Char)
    (elems : List (List Nat)) : Option (List Nat × Nat) :=
  let data_typecode := platformFixChar tc itemsize
  let dtype := get_dmtype_for_structchar data_typecode
  if dtype < 0 then none
  else
    let count := listProd shape * itemsize / calcsizeChar data_typecode
    let ic := chunkIndexCount shape
    let csize := listProd (shape.drop (shape.length - ic))
    let outerCount := listProd (shape.take (shape.length - ic))
    let chunks := (List.range outerCount).flatMap
      (fun i => ((elems.drop (i * csize)).take csize).flatten)
    some (beW ver dtype.toNat ++ beW ver count ++ chunks, 2)

/-- Modelled from the spec: "a single monolithic write of the same flattened
buffer (size-width type id, size-width element count, then the raw
little-endian element bytes)". -/
def monolithic_array_write (ver : Ver) (dtype count : Nat) (elems : List (List Nat)) :
    List Nat :=
  beW ver dtype ++ beW ver count ++ elems.flatten

theorem listProd_foldl (l : List Nat) (n : Nat) : l.foldl (· * ·) n = n * listProd l := by
  induction l generalizing n with
  | nil => simp [listProd]
  | cons x xs ih =>
      simp only [List.foldl_cons, listProd] at *
      rw [ih (n * x), ih (1 * x)]
      ring

theorem listProd_append (a b : List Nat) : listProd (a ++ b) = listProd a * listProd b := by
  show (a ++ b).foldl (· * ·) 1 = listProd a * listProd b
  rw [List.foldl_append, listProd_foldl]
  rfl

/-- Concatenating the `m` consecutive slices of width `c` of a list of
length `m * c` gives back the list. -/
theorem flatMap_range_slices {α : Type} (c : Nat) :
    ∀ (m : Nat) (l : List α), l.length = m * c →
      (List.range m).flatMap (fun i => (l.drop (i * c)).take c) = l := by
  intro m
  induction m with
  | zero =>
      intro l h
      rw [Nat.zero_mul, List.length_eq_zero] at h
      simp [h]
  | succ m ih =>
      intro l h
      rw [List.range_succ_eq_map]
      simp only [List.flatMap_cons, Nat.zero_mul, List.drop_zero, List.flatMap_map]
      have hlen : (l.drop c).length = m * c := by
        rw [List.length_drop, h, Nat.succ_mul]
        omega
      have hstep : ∀ i : Nat, ((l.drop ((i + 1) * c)).take c) = ((l.drop c).drop (i * c)).take c := by
        intro i
        rw [Nat.succ_mul, Nat.add_comm, ← List.drop_drop]
      calc (l.take c) ++ (List.range m).flatMap (fun i => (l.drop ((i + 1) * c)).take c)
          = (l.take c) ++ (List.range m).flatMap (fun i => ((l.drop c).drop (i * c)).take c) := by
            congr 1
            apply List.flatMap_congr
            intro i _
            exact hstep i
        _ = (l.take c) ++ l.drop c := by rw [ih (l.drop c) hlen]
        _ = l := List.take_append_drop c l

theorem flatMap_flatten {α : Type} (f : Nat → List (List α)) (r : List Nat) :
    r.flatMap (fun i => (f i).flatten) = (r.flatMap f).flatten := by
  induction r with
  | nil => simp
  | cons x xs ih => simp [List.flatMap_cons, ih]

/-- C4: for every numeric N-dimensional array, writing it through the
chunked path (`DataChunkWriter.write`) produces a byte sequence identical to
a single monolithic write of the same flattened buffer (size-width type id,
size-width element count, then the raw little-endian element bytes).  The
equality holds for every shape, in particular for arrays whose size exceeds
the 64 MiB chunk threshold, since the concatenation of the row-major chunks
is the flattened buffer regardless of where the chunk search stops.
Hypotheses: the flat element list matches the shape, and the dtype char is
registered with a consistent item size (as for every numpy dtype the source
accepts). -/
theorem C4_chunked_write_equiv (ver : Ver) (shape : List Nat) (itemsize : Nat) (tc : Char)
    (elems : List (List Nat))
    (hlen : elems.length = listProd shape)
    (hsz : calcsizeChar (platformFixChar tc itemsize) = itemsize)
    (hdt : 0 ≤ get_dmtype_for_structchar (platformFixChar tc itemsize)) (hpos : 0 < itemsize) :
    DataChunkWriter_write ver shape itemsize tc elems =
      some (monolithic_array_write ver (get_dmtype_for_structchar (platformFixChar tc itemsize)).toNat
        elems.length elems, 2) := by
  unfold DataChunkWriter_write monolithic_array_write
  have hneg : ¬ (get_dmtype_for_structchar (platformFixChar tc itemsize) < 0) := by omega
  simp only [hneg, if_neg, not_false_iff]
  have hcount : listProd shape * itemsize / calcsizeChar (platformFixChar tc itemsize)
      = elems.length := by
    rw [hsz, hlen, Nat.mul_div_cancel _ hpos]
  rw [hcount]
  have hsplit : listProd shape =
      listProd (shape.take (shape.length - chunkIndexCount shape)) *
        listProd (shape.drop (shape.length - chunkIndexCount shape)) := by
    rw [← listProd_append, List.take_append_drop]
  have hflat : (List.range (listProd (shape.take (shape.length - chunkIndexCount shape)))).flatMap
      (fun i => ((elems.drop (i * listProd (shape.drop (shape.length - chunkIndexCount shape)))).take
        (listProd (shape.drop (shape.length - chunkIndexCount shape)))).flatten) = elems.flatten := by
    rw [flatMap_flatten, flatMap_range_slices _ _ elems (by rw [hlen, hsplit])]
  rw [hflat]

/-- Witness for C4: a 2×3 array of 2-byte elements with dtype char `h`. -/
theorem C4_witness :
    DataChunkWriter_write .v3 [2, 3] 2 'h'
        [[0, 1], [2, 3], [4, 5], [6, 7], [8, 9], [10, 11]] =
      some (monolithic_array_write .v3 2 6
        [[0, 1], [2, 3], [4, 5], [6, 7], [8, 9], [10, 11]], 2) := by
  have h := C4_chunked_write_equiv .v3 [2, 3] 2 'h'
    [[0, 1], [2, 3], [4, 5], [6, 7], [8, 9], [10, 11]]
    (by decide) (by decide) (by decide) (by decide)
  exact h

/-! ## `load_image` shape-descriptor inference (`dm3_image_utils.py`) -/

/-- `DataAndMetadata.DataDescriptor`: counts are `Int` because the source
mutates them with unguarded `+=`/`-=` arithmetic. -/
structure DataDescriptor where
  is_sequence : Bool
  collection_dimension_count : Int
  datum_dimension_count : Int
  deriving DecidableEq, Repr

/-- First stage of `load_image`'s shape/descriptor computation: the
branch on rank and dtype (with the axis moves of the rank-3 spectral
cases), before the `ImageTags` adjustments.  `none` embeds the `KeyError`
raised when a rank-3 non-uint8 image has no `ImageTags`. -/
def load_image_stage0 (shape : List Nat) (isU8 : Bool) (hasImageTags : Bool)
    (fmt : String) : Option (List Nat × DataDescriptor) :=
  if shape.length = 3 ∧ ¬ isU8 then
    if ¬ hasImageTags then none
    else if fmt = "spectrum" ∨ fmt = "spectrum image" then
      match shape with
      | [s0, s1, s2] =>
          if s1 = 1 then
            -- numpy.squeeze(data, 1) then numpy.moveaxis(data, 0, 1)
            some ([s2, s0], DataDescriptor.mk false 1 1)
          else
            -- numpy.moveaxis(data, 0, 2)
            some ([s1, s2, s0], DataDescriptor.mk false 2 1)
      | _ => none
    else some (shape, DataDescriptor.mk false 1 2)
  else if shape.length = 4 ∧ ¬ isU8 then some (shape, DataDescriptor.mk false 2 2)
  else if isU8 then some (shape, DataDescriptor.mk false 0 (shape.dropLast.length : Int))
  else some (shape, DataDescriptor.mk false 0 (shape.length : Int))

/-- The spectral reclassification of `load_image`
(`collection += datum - 1; datum = 1` when the `Meta Data` format is
"spectrum" or "spectrum image"). -/
def load_image_adjust_format (fmt : String) (d0 : DataDescriptor) : DataDescriptor :=
  if fmt = "spectrum" ∨ fmt = "spectrum image" then
    DataDescriptor.mk d0.is_sequence
      (d0.collection_dimension_count + d0.datum_dimension_count - 1) 1
  else d0

/-- The `IsSequence` promotion of `load_image`
(`is_sequence = True; collection -= 1` when `IsSequence` is truthy and the
descriptor has a collection axis). -/
def load_image_adjust_sequence (isSeq : Bool) (d1 : DataDescriptor) : DataDescriptor :=
  if isSeq ∧ d1.collection_dimension_count > 0 then
    DataDescriptor.mk true (d1.collection_dimension_count - 1) d1.datum_dimension_count
  else d1

/-- The `if 'ImageTags' in image_tags:` adjustments of `load_image`. -/
def load_image_adjust (hasImageTags : Bool) (fmt : String) (isSeq : Bool)
    (d0 : DataDescriptor) : DataDescriptor :=
  if hasImageTags then load_image_adjust_sequence isSeq (load_image_adjust_format fmt d0)
  else d0

/-- The shape/descriptor computation of `load_image`: given the shape of the
array produced by `imagedatadict_to_ndarray`, whether its dtype is uint8,
whether the image has an `ImageTags` entry, the lower-cased
`ImageTags['Meta Data']['Format']` string (empty when absent) and the
truthiness of `ImageTags['Meta Data']['IsSequence']`, returns the shape of
the data actually returned together with its `DataDescriptor`. -/
def load_image_shape_descriptor (shape : List Nat) (isU8 : Bool) (hasImageTags : Bool)
    (fmt : String) (isSeq : Bool) : Option (List Nat × DataDescriptor) :=
  (load_image_stage0 shape isU8 hasImageTags fmt).map
    (fun p => (p.1, load_image_adjust hasImageTags fmt isSeq p.2))

/-- Sum of descriptor axes: `(1 if is_sequence else 0) + collection + datum`. -/
def descSum (d : DataDescriptor) : Int :=
  (if d.is_sequence then 1 else 0) + d.collection_dimension_count +
    d.datum_dimension_count

theorem load_image_stage0_sum (shape : List Nat) (isU8 hasImageTags : Bool)
    (fmt : String) (outShape : List Nat) (d0 : DataDescriptor)
    (hU8 : isU8 = true → shape ≠ [])
    (h : load_image_stage0 shape isU8 hasImageTags fmt = some (outShape, d0)) :
    descSum d0 = (if isU8 then (outShape.length : Int) - 1 else (outShape.length : Int)) ∧
      d0.is_sequence = false := by
  classical
  unfold load_image_stage0 at h
  split at h
  · rename_i h3
    split at h
    · exact absurd h (by simp)
    · split at h
      · rcases shape with _ | ⟨s0, _ | ⟨s1, _ | ⟨s2, _ | ⟨s3, tl⟩⟩⟩⟩ <;>
          simp only [List.length_nil, List.length_cons] at h3 <;> try omega
        simp only [] at h
        split at h <;>
          · injection h with h1
            rw [Prod.mk.injEq] at h1
            obtain ⟨h1, h2⟩ := h1
            rcases h3 with ⟨-, hni⟩
            simp only [Bool.not_eq_true] at hni
            subst hni
            subst h1
            rw [← h2]
            simp [descSum]
      · injection h with h1
        rw [Prod.mk.injEq] at h1
        obtain ⟨h1, h2⟩ := h1
        rcases h3 with ⟨hlen, hni⟩
        simp only [Bool.not_eq_true] at hni
        subst hni
        subst h1
        rw [← h2]
        simp [descSum, hlen]
  · split at h
    · rename_i h4
      injection h with h1
      rw [Prod.mk.injEq] at h1
      obtain ⟨h1, h2⟩ := h1
      rcases h4 with ⟨hlen, hni⟩
      simp only [Bool.not_eq_true] at hni
      subst hni
      subst h1
      rw [← h2]
      simp [descSum, hlen]
    · split at h
      · rename_i hu
        injection h with h1
        rw [Prod.mk.injEq] at h1
        obtain ⟨h1, h2⟩ := h1
        have hne : shape ≠ [] := hU8 hu
        have hlen : 0 < shape.length := List.length_pos.mpr hne
        rw [← h1, ← h2]
        refine ⟨?_, rfl⟩
        simp only [descSum, hu, if_pos, List.length_dropLast]
        push_cast
        omega
      · rename_i hu
        injection h with h1
        rw [Prod.mk.injEq] at h1
        obtain ⟨h1, h2⟩ := h1
        subst h1
        rw [← h2]
        simp only [Bool.not_eq_true] at hu
        simp [descSum, hu]

theorem load_image_adjust_format_sum (fmt : String) (d0 : DataDescriptor) :
    descSum (load_image_adjust_format fmt d0) = descSum d0 ∧
      (load_image_adjust_format fmt d0).is_sequence = d0.is_sequence := by
  unfold load_image_adjust_format
  split
  · refine ⟨?_, rfl⟩
    simp only [descSum]
    omega
  · exact ⟨rfl, rfl⟩

theorem load_image_adjust_sequence_sum (isSeq : Bool) (d1 : DataDescriptor)
    (hseq : d1.is_sequence = false) :
    descSum (load_image_adjust_sequence isSeq d1) = descSum d1 := by
  unfold load_image_adjust_sequence
  split
  · simp only [descSum, hseq]
    norm_num
  · rfl

theorem load_image_adjust_sum (hasImageTags : Bool) (fmt : String) (isSeq : Bool)
    (d0 : DataDescriptor) (hseq : d0.is_sequence = false) :
    descSum (load_image_adjust hasImageTags fmt isSeq d0) = descSum d0 := by
  unfold load_image_adjust
  split
  · obtain ⟨h1, h2⟩ := load_image_adjust_format_sum fmt d0
    rw [load_image_adjust_sequence_sum isSeq _ (by rw [h2, hseq]), h1]
  · rfl

/-- C5: for every image successfully returned by `load_image`, the shape
descriptor satisfies `(1 if is_sequence else 0) + collection_dimension_count
+ datum_dimension_count = rank of the returned data array`, where for uint8
(RGB/RGBA) data the trailing channel axis is excluded from the counted rank.
The hypothesis `isU8 → shape ≠ []` holds for every uint8 array the read
path produces, since `imagedatadict_to_ndarray` creates uint8 data only by
appending a channel axis (so its rank is at least 1). -/
theorem C5_descriptor_invariant (shape : List Nat) (isU8 hasImageTags : Bool)
    (fmt : String) (isSeq : Bool) (outShape : List Nat) (d : DataDescriptor)
    (hU8 : isU8 = true → shape ≠ [])
    (h : load_image_shape_descriptor shape isU8 hasImageTags fmt isSeq =
      some (outShape, d)) :
    (if d.is_sequence then 1 else 0) + d.collection_dimension_count +
        d.datum_dimension_count =
      (if isU8 then (outShape.length : Int) - 1 else (outShape.length : Int)) := by
  unfold load_image_shape_descriptor at h
  rcases h0 : load_image_stage0 shape isU8 hasImageTags fmt with _ | ⟨sh1, d0⟩
  · rw [h0] at h; exact absurd h (by simp)
  · rw [h0] at h
    simp only [Option.map_some'] at h
    injection h with h1
    rw [Prod.mk.injEq] at h1
    obtain ⟨hsh, hd⟩ := h1
    obtain ⟨hsum, hseq⟩ := load_image_stage0_sum shape isU8 hasImageTags fmt sh1 d0 hU8 h0
    have hadj := load_image_adjust_sum hasImageTags fmt isSeq d0 hseq
    show descSum d = _
    rw [← hd, hadj, hsum, hsh]

/-- Witness for C5: a rank-3 float spectrum-image with an `IsSequence` tag
(a sequence of spectra), checked at shape (5, 6, 7). -/
theorem C5_witness :
    load_image_shape_descriptor [5, 6, 7] false true "spectrum image" true =
        some ([6, 7, 5], DataDescriptor.mk true 1 1) ∧
      (if (DataDescriptor.mk true 1 1).is_sequence then (1 : Int) else 0) +
          (DataDescriptor.mk true 1 1).collection_dimension_count +
          (DataDescriptor.mk true 1 1).datum_dimension_count =
        (if false then (([6, 7, 5] : List Nat).length : Int) - 1
         else (([6, 7, 5] : List Nat).length : Int)) :=
  ⟨by decide,
   C5_descriptor_invariant [5, 6, 7] false true "spectrum image" true [6, 7, 5]
     (DataDescriptor.mk true 1 1) (fun hc => by cases hc) (by decide)⟩

/-! ## RGB/RGBA image round trip (`dm3_image_utils.py`)

`ndarray_to_imagedatadict` packs a uint8 (h, w, 4) array into int32 words by
`nparr.view(numpy.int32)` (little-endian byte order on the platforms the
source targets), and extends a (h, w, 3) array with an alpha byte 255 first;
`imagedatadict_to_ndarray` views the int32 data back as uint8 and strips the
last channel (`[..., :-1]`, the source comments it with "strip A").
Pixels are embedded as their lists of channel bytes, in row-major order. -/

/-- `ImageData` dictionary produced for an image: `DataType`, `PixelDepth`,
`Dimensions` and the flat `Data` array of signed int32 values. -/
structure ImageDataDict where
  DataType : Nat
  PixelDepth : Nat
  Dimensions : List Nat
  Data : List Int
  deriving DecidableEq, Repr

/-- The uint8 RGB/RGBA branch of `ndarray_to_imagedatadict` for an array of
shape (h, w, c): the per-pixel int32 view of the 4 channel bytes (3-channel
input is extended with alpha 255), `DataType` 23, `PixelDepth` 4 and the
reversed shape as `Dimensions`; `none` embeds the failing
`assert nparr.shape[2] == 3` for other channel counts. -/
def ndarray_to_imagedatadict_rgb (hgt wdt c : Nat) (pixels : List (List Nat)) :
    Option ImageDataDict :=
  if c = 4 then
    some ⟨23, 4, [wdt, hgt], pixels.map (fun p => unpackSigned 4 p)⟩
  else if c = 3 then
    some ⟨23, 4, [wdt, hgt], pixels.map (fun p => unpackSigned 4 (p ++ [255]))⟩
  else none

/-- The int32/RGB instance of `imagedatadict_to_ndarray`: checks the
`DataType`/`PixelDepth` asserts (`dm_image_dtypes[23]` is int32 of item size
4), reshapes to the reversed `Dimensions` (requiring the element count to
match), then views the int32 buffer as uint8 4-byte pixels and drops the
trailing alpha channel.  Returns the shape of the first axes and the pixel
byte lists. -/
def imagedatadict_to_ndarray_rgb (d : ImageDataDict) :
    Option (List Nat × List (List Nat)) :=
  if d.DataType = 23 ∧ d.PixelDepth = 4 ∧ d.Data.length = listProd d.Dimensions then
    some (d.Dimensions.reverse, d.Data.map (fun v => (packInt 4 v).take 3))
  else none

theorem leVal_lt (l : List Nat) (h : ∀ b ∈ l, b < 256) : leVal l < 256 ^ l.length := by
  induction l with
  | nil => simp [leVal]
  | cons b bs ih =>
      have hb : b < 256 := h b (List.mem_cons_self _ _)
      have hbs : leVal bs < 256 ^ bs.length := ih (fun x hx => h x (List.mem_cons_of_mem _ hx))
      simp only [leVal, List.length_cons, pow_succ]
      calc b + 256 * leVal bs < 256 + 256 * leVal bs := by omega
        _ = 256 * (leVal bs + 1) := by ring
        _ ≤ 256 * 256 ^ bs.length := by
              have : leVal bs + 1 ≤ 256 ^ bs.length := hbs
              exact Nat.mul_le_mul_left _ this
        _ = 256 ^ bs.length * 256 := by ring

theorem leBytes_leVal (l : List Nat) (h : ∀ b ∈ l, b < 256) :
    leBytes l.length (leVal l) = l := by
  induction l with
  | nil => rfl
  | cons b bs ih =>
      have hb : b < 256 := h b (List.mem_cons_self _ _)
      simp only [List.length_cons, leBytes, leVal]
      have h1 : (b + 256 * leVal bs) % 256 = b := by omega
      have h2 : (b + 256 * leVal bs) / 256 = leVal bs := by omega
      rw [h1, h2, ih (fun x hx => h x (List.mem_cons_of_mem _ hx))]

theorem packInt_unpackSigned (l : List Nat) (h : ∀ b ∈ l, b < 256) :
    packInt l.length (unpackSigned l.length l) = l := by
  have hM := two_pow_eq l.length
  have hlt : leVal l < 256 ^ l.length := leVal_lt l h
  have hmod : (unpackSigned l.length l) % ((2 : Int) ^ (8 * l.length)) = (leVal l : Int) := by
    unfold unpackSigned
    split
    · apply Int.emod_eq_of_lt (by positivity)
      omega
    · have hrw : ((leVal l : Int) - 2 ^ (8 * l.length)) =
          (leVal l : Int) + 2 ^ (8 * l.length) * (-1) := by ring
      rw [hrw, Int.add_mul_emod_self_left]
      apply Int.emod_eq_of_lt (by positivity)
      omega
  unfold packInt
  rw [hmod]
  have : ((leVal l : Int)).toNat = leVal l := by omega
  rw [this]
  exact leBytes_leVal l h

/-- C6 counterexample: a single RGBA pixel (1, 2, 3, 4) does not round-trip
equal — the read strips the alpha channel, returning the 3-channel pixel
(1, 2, 3), contrary to the claim that the alpha values are preserved. -/
theorem C6_counterexample :
    (ndarray_to_imagedatadict_rgb 1 1 4 [[1, 2, 3, 4]]).bind imagedatadict_to_ndarray_rgb
        = some ([1, 1], [[1, 2, 3]]) ∧
      ¬ ((ndarray_to_imagedatadict_rgb 1 1 4 [[1, 2, 3, 4]]).bind imagedatadict_to_ndarray_rgb
        = some ([1, 1], [[1, 2, 3, 4]])) := by
  constructor <;> decide

/-- C6 amended: a uint8 array of shape (h, w, 3) round-trips through
`save_image`/`load_image`'s image-dict conversion to an equal 3-channel
array, channel order preserved; a uint8 (h, w, 4) array comes back as its
first three channels per pixel — the alpha channel is written (packed into
the int32 word) but stripped again on read (`[..., :-1]`), so it is not
preserved. -/
theorem C6_rgb_roundtrip_amended (hgt wdt : Nat) (pixels : List (List Nat))
    (hcount : pixels.length = hgt * wdt) :
    ((∀ p ∈ pixels, p.length = 3 ∧ ∀ b ∈ p, b < 256) →
      (ndarray_to_imagedatadict_rgb hgt wdt 3 pixels).bind imagedatadict_to_ndarray_rgb
        = some ([hgt, wdt], pixels)) ∧
    ((∀ p ∈ pixels, p.length = 4 ∧ ∀ b ∈ p, b < 256) →
      (ndarray_to_imagedatadict_rgb hgt wdt 4 pixels).bind imagedatadict_to_ndarray_rgb
        = some ([hgt, wdt], pixels.map (fun p => p.take 3))) := by
  have hprod : listProd [wdt, hgt] = hgt * wdt := by
    simp [listProd]
    ring
  constructor
  · intro hpix
    have hd : ndarray_to_imagedatadict_rgb hgt wdt 3 pixels =
        some ⟨23, 4, [wdt, hgt], pixels.map (fun p => unpackSigned 4 (p ++ [255]))⟩ := by
      unfold ndarray_to_imagedatadict_rgb
      norm_num
    rw [hd]
    show imagedatadict_to_ndarray_rgb _ = _
    have hlenmap : (pixels.map (fun p => unpackSigned 4 (p ++ [255]))).length
        = listProd [wdt, hgt] := by
      rw [List.length_map, hcount, hprod]
    have hmap : (pixels.map (fun p => unpackSigned 4 (p ++ [255]))).map
        (fun v => (packInt 4 v).take 3) = pixels := by
      rw [List.map_map]
      have hcg : ∀ p ∈ pixels,
          ((fun v => (packInt 4 v).take 3) ∘ fun p => unpackSigned 4 (p ++ [255])) p = id p := by
        intro p hp
        obtain ⟨hlen, hbyte⟩ := hpix p hp
        have hall : ∀ b ∈ p ++ [255], b < 256 := by
          intro b hb
          rcases List.mem_append.mp hb with hb | hb
          · exact hbyte b hb
          · simp at hb; omega
        have hlen4 : (p ++ [255]).length = 4 := by simp [hlen]
        have hrt := packInt_unpackSigned (p ++ [255]) hall
        rw [hlen4] at hrt
        show (packInt 4 (unpackSigned 4 (p ++ [255]))).take 3 = p
        rw [hrt, List.take_append_of_le_length (by omega), List.take_of_length_le (by omega)]
      rw [List.map_congr_left hcg, List.map_id]
    unfold imagedatadict_to_ndarray_rgb
    rw [if_pos ⟨rfl, rfl, hlenmap⟩, hmap]
    rfl
  · intro hpix
    have hd : ndarray_to_imagedatadict_rgb hgt wdt 4 pixels =
        some ⟨23, 4, [wdt, hgt], pixels.map (fun p => unpackSigned 4 p)⟩ := by
      unfold ndarray_to_imagedatadict_rgb
      norm_num
    rw [hd]
    show imagedatadict_to_ndarray_rgb _ = _
    have hlenmap : (pixels.map (fun p => unpackSigned 4 p)).length
        = listProd [wdt, hgt] := by
      rw [List.length_map, hcount, hprod]
    have hmap : (pixels.map (fun p => unpackSigned 4 p)).map
        (fun v => (packInt 4 v).take 3) = pixels.map (fun p => p.take 3) := by
      rw [List.map_map]
      apply List.map_congr_left
      intro p hp
      obtain ⟨hlen, hbyte⟩ := hpix p hp
      have hrt := packInt_unpackSigned p hbyte
      rw [hlen] at hrt
      show (packInt 4 (unpackSigned 4 p)).take 3 = p.take 3
      rw [hrt]
    unfold imagedatadict_to_ndarray_rgb
    rw [if_pos ⟨rfl, rfl, hlenmap⟩, hmap]
    rfl

/-- Witness for the amended C6: one green RGB pixel and one RGBA pixel. -/
theorem C6_witness :
    (ndarray_to_imagedatadict_rgb 1 1 3 [[10, 20, 30]]).bind imagedatadict_to_ndarray_rgb
        = some ([1, 1], [[10, 20, 30]]) :=
  (C6_rgb_roundtrip_amended 1 1 [[10, 20, 30]] (by decide)).1 (by decide)

/-! ## Per-type payload writers (the `dm_write_types` dispatch table)

The payload writers perform only sequential `f.write` calls, so they are
embedded as pure functions from the value to `(bytes written, payload
header size)`; `none` embeds a raised exception. -/

/-- The delimiter literal `"%%%%"` as ISO-8859-1 bytes. -/
def pctBytes : List Nat := [37, 37, 37, 37]

/-- `dm_write_struct_types`: writes `(0, nfields)` then `(0, t)` for each
field type, all as size-width words, and returns `2 + 2 * nfields`. -/
def dm_write_struct_types (ver : Ver) (outtypes : List Nat) : List Nat × Nat :=
  (beW ver 0 ++ beW ver outtypes.length ++
      outtypes.flatMap (fun t => beW ver 0 ++ beW ver t),
    2 + 2 * outtypes.length)

/-- `StructArray.write`: size-width `struct` type id, the struct-types
sub-header, size-width element count (`num_elements`, which asserts the raw
byte length is a multiple of the per-element width), then the raw bytes.
Returns payload header size `struct_header + 2`.  `none` embeds a failing
assert, `struct.error` on an unregistered type code, and the
`ZeroDivisionError` of an empty typecode list. -/
def StructArray_write (ver : Ver) (tcs : List Char) (raw : List Nat) :
    Option (List Nat × Nat) :=
  let outdmtypes := tcs.map get_dmtype_for_structchar
  if outdmtypes.any (fun t => t < 0) then none
  else
    let b := calcsizeJoin tcs
    if b = 0 then none
    else if raw.length % b ≠ 0 then none
    else
      let sth := dm_write_struct_types ver (outdmtypes.map Int.toNat)
      some (beW ver (get_dmtype_for_name "struct") ++ sth.1 ++
          beW ver (raw.length / b) ++ raw,
        sth.2 + 2)

/-- `dm_write_array` (`dm_write_types[20]`): dispatches to
`StructArray.write` or `DataChunkWriter.write`; a Python `str` is first
re-encoded as an `array('H', s.encode("utf_16_le"))` and written as
size-width dtype 4, size-width element count, then the little-endian code
units.  Any other value hits the warning branch, which writes nothing and
returns header size 0. -/
def dm_write_array (ver : Ver) (outdata : PyVal) : Option (List Nat × Nat) :=
  match outdata with
  | .vstructArray tcs raw => StructArray_write ver tcs raw
  | .vchunk shape itemsize tc elems => DataChunkWriter_write ver shape itemsize tc elems
  | .vstr units =>
      let dtype := get_dmtype_for_structchar 'H'
      if dtype < 0 then none
      else some (beW ver dtype.toNat ++
          beW ver (2 * units.length / calcsizeChar 'H') ++
          units.flatMap (fun u => leBytes 2 u), 2)
  | _ => some ([], 0)

/-- The tuple-of-tuples flattening at the top of `dm_write_struct`
(`outdata = tuple(itertools.chain(*outdata))` when the tuple has more than
one element, all of them tuples or lists). -/
def isTupleOrList : PyVal → Bool
  | .vtuple _ => true
  | .vlist _ => true
  | _ => false

/-- Children of a tuple or list value (the iterable unpacked by
`itertools.chain`). -/
def childList : PyVal → List PyVal
  | .vtuple l => l
  | .vlist l => l
  | _ => []

/-- `flattenFields` applies the `dm_write_struct` flattening. -/
def flattenFields (fields : List PyVal) : List PyVal :=
  if fields.length > 1 ∧ fields.all isTupleOrList then fields.flatMap childList
  else fields

theorem sizeOf_PyVal_pos (x : PyVal) : 1 ≤ sizeOf x := by
  cases x <;> (simp; try omega)

theorem sizeOf_childList_le (x : PyVal) : sizeOf (childList x) ≤ sizeOf x := by
  cases x <;> (simp [childList]; try omega)

theorem sizeOf_list_append (a b : List PyVal) :
    sizeOf (a ++ b) ≤ sizeOf a + sizeOf b := by
  induction a with
  | nil =>
      simp only [List.nil_append, List.nil.sizeOf_spec]
      omega
  | cons x xs ih =>
      simp only [List.cons_append, List.cons.sizeOf_spec] at *
      omega

theorem sizeOf_flatMap_childList (l : List PyVal) :
    sizeOf (l.flatMap childList) ≤ sizeOf l := by
  induction l with
  | nil => simp [List.flatMap]
  | cons x xs ih =>
      have h1 := sizeOf_list_append (childList x) (xs.flatMap childList)
      have h2 := sizeOf_childList_le x
      simp only [List.flatMap_cons, List.cons.sizeOf_spec]
      omega

theorem sizeOf_flattenFields_le (fields : List PyVal) :
    sizeOf (flattenFields fields) ≤ sizeOf fields := by
  unfold flattenFields
  split
  · exact sizeOf_flatMap_childList fields
  · exact le_refl _

mutual

/-- The `dm_write_types` dispatch: `dm_write_types[tid](f, value)` as a pure
byte writer.  Ids 2–12 are `standard_dm_write` closures (8 is overridden by
`dm_write_bool`), 15 is `dm_write_struct`, 18 is `dm_write_string` (which
always raises: it passes a `bytes` object to `str_to_iso8859_bytes`), 20 is
`dm_write_array`; any other id is a `KeyError`.  Integer ids accept only
ints (bools always dispatch to id 8 via `get_structdmtypes`); the float
ids accept the values that can reach them — `vfloat` 64-bit patterns for
id 7 and unmapped 32-bit numerics (`vother`) for the id-6 fallback. -/
def encTyped (ver : Ver) (tid : Nat) (v : PyVal) : Option (List Nat × Nat) :=
  if tid = 8 then (dm_write_bool v).map (fun bs => (bs, 0))
  else if tid = 15 then
    match v with
    | .vtuple fields => dm_write_struct ver fields
    | _ => none
  else if tid = 18 then none
  else if tid = 20 then dm_write_array ver v
  else if tid = 2 ∨ tid = 3 ∨ tid = 4 ∨ tid = 5 ∨ tid = 9 ∨ tid = 10 ∨
      tid = 11 ∨ tid = 12 then
    match v with
    | .vint n => (standard_dm_write tid n).map (fun bs => (bs, 0))
    | _ => none
  else if tid = 7 then
    match v with
    | .vfloat bits => (standard_dm_write 7 (bits : Int)).map (fun bs => (bs, 0))
    | _ => none
  else if tid = 6 then
    match v with
    | .vother bits => (standard_dm_write 6 (bits : Int)).map (fun bs => (bs, 0))
    | _ => none
  else none
termination_by 2 * sizeOf v
decreasing_by
  all_goals simp_wf
  all_goals omega

/-- `dm_write_struct` (`dm_write_types[15]`): flatten a tuple of
tuples/lists, compute each field's dm type with `get_structdmtypes`, write
the struct-types sub-header, then each field through the dispatch table;
the `write_len` backpatch branch is dead code (`write_len = False`).
Returns the header size of `dm_write_struct_types`. -/
def dm_write_struct (ver : Ver) (fields : List PyVal) : Option (List Nat × Nat) :=
  let outdata := flattenFields fields
  let write_types := outdata.map (fun x => (get_structdmtypes x).2)
  let sth := dm_write_struct_types ver write_types
  match encFields ver write_types outdata with
  | none => none
  | some body => some (sth.1 ++ body, sth.2)
termination_by 2 * sizeOf fields + 1
decreasing_by
  have := sizeOf_flattenFields_le fields
  simp_wf
  omega

/-- The field loop of `dm_write_struct`
(`for t, data in zip(write_types, outdata): dm_write_types[t](f, data)`). -/
def encFields (ver : Ver) : List Nat → List PyVal → Option (List Nat)
  | _, [] => some []
  | [], _ :: _ => some []
  | t :: ts, x :: xs =>
      match encTyped ver t x, encFields ver ts xs with
      | some (b, _), some rest => some (b ++ rest)
      | _, _ => none
termination_by ts xs => 2 * sizeOf xs
decreasing_by
  all_goals simp_wf
  all_goals omega

end

/-! ## The stream model and the seeking writers

`dm_write_tag_data`, `dm_write_tag_entry` (under version 4) and
`dm_write_header` backpatch length fields by `f.seek`/`f.write`/`f.seek`;
they are embedded operationally on a stream state.  In every reachable
state the position is at most the data length. -/

/-- A positioned seekable byte stream (`io.BytesIO`-like). -/
structure DMStream where
  data : List Nat
  pos : Nat
  deriving DecidableEq, Repr

/-- `f.write(bs)`: overwrite at the position, extending at the end. -/
def fwrite (s : DMStream) (bs : List Nat) : DMStream :=
  ⟨s.data.take s.pos ++ bs ++ s.data.drop (s.pos + bs.length), s.pos + bs.length⟩

/-- `f.seek(n)`. -/
def fseek (s : DMStream) (n : Nat) : DMStream := ⟨s.data, n⟩

/-- `f.seek(0, 2)`: seek to end-of-stream. -/
def fseekEnd (s : DMStream) : DMStream := ⟨s.data, s.data.length⟩

theorem fwrite_append (s : DMStream) (bs : List Nat) (h : s.pos = s.data.length) :
    fwrite s bs = ⟨s.data ++ bs, s.data.length + bs.length⟩ := by
  unfold fwrite
  rw [h]
  congr 1
  · rw [List.take_of_length_le (le_refl _), List.drop_eq_nil_of_le (by omega),
      List.append_nil]

theorem fwrite_patch (pre mid post bs : List Nat) (hm : mid.length = bs.length) :
    fwrite ⟨pre ++ mid ++ post, pre.length⟩ bs =
      ⟨pre ++ bs ++ post, pre.length + bs.length⟩ := by
  unfold fwrite
  congr 1
  · show (pre ++ mid ++ post).take pre.length ++ bs ++
        (pre ++ mid ++ post).drop (pre.length + bs.length) = pre ++ bs ++ post
    have h1 : (pre ++ mid ++ post).take pre.length = pre := by
      rw [List.append_assoc]
      exact List.take_left _ _
    have h2 : (pre ++ mid ++ post).drop (pre.length + bs.length) = post := by
      have : pre.length + bs.length = (pre ++ mid).length := by
        rw [List.length_append]
        omega
      rw [this]
      exact List.drop_left _ _
    rw [h1, h2, List.append_assoc]

/-- `dm_write_tag_data`: resolve the dm type, write the `"%%%%"` delimiter,
a size-width 0 placeholder for the header length and the size-width type
id, write the payload through the dispatch table, then seek back
(`pos-16` under version 4, `pos-8` under version 3), backpatch the header
length with `header+1`, and seek to end-of-stream. -/
def dm_write_tag_data (ver : Ver) (s : DMStream) (value : PyVal) : Option DMStream :=
  let data_type := (get_structdmtypes value).2
  if data_type = 0 then none
  else
    let s1 := fwrite s (pctBytes ++ beW ver 0 ++ beW ver data_type)
    let pos := s1.pos
    match encTyped ver data_type value with
    | none => none
    | some ph =>
        let s2 := fwrite s1 ph.1
        let s3 := fseek s2 (if ver = .v4 then pos - 16 else pos - 8)
        let s4 := fwrite s3 (beW ver (ph.2 + 1))
        some (fseekEnd s4)

/-- `str_to_iso8859_bytes`: Latin-1 encoding of a tag name; `none` embeds
the `UnicodeEncodeError` on characters above U+00FF. -/
def latin1Bytes (s : String) : Option (List Nat) :=
  if s.data.all (fun c => c.toNat < 256) then some (s.data.map (fun c => c.toNat))
  else none

/-- Group test of `dm_write_tag_entry` (`isinstance(outdata, (dict, list))`). -/
def isGroupVal : PyVal → Bool
  | .vdict _ => true
  | .vlist _ => true
  | _ => false

mutual

/-- `dm_write_tag_entry`: one byte kind (20 group / 21 data), 2-byte
big-endian name length, the Latin-1 name bytes when the name is non-empty;
under version 4 a size-width placeholder, backpatched after the body with
`end - start - 8` followed by a seek to end-of-stream. -/
def dm_write_tag_entry (ver : Ver) (s : DMStream) (outdata : PyVal)
    (outname : Option String) : Option DMStream :=
  let dtype := if isGroupVal outdata then 20 else 21
  let name_len := match outname with
    | some nm => nm.length
    | none => 0
  let s1 := fwrite s ([dtype] ++ beBytes 2 name_len)
  match (match outname with
         | some nm => if nm.length > 0 then latin1Bytes nm else some []
         | none => some []) with
  | none => none
  | some nameBytes =>
      let s2 := fwrite s1 nameBytes
      let start := s2.pos
      let s3 := if ver = .v4 then fwrite s2 (beW ver 0) else s2
      match (if dtype = 21 then dm_write_tag_data ver s3 outdata
             else dm_write_tag_root ver s3 outdata) with
      | none => none
      | some sb =>
          if ver = .v4 then
            let endPos := sb.pos
            let b1 := fseek sb start
            let b2 := fwrite b1 (beW ver (endPos - start - 8))
            some (fseekEnd b2)
          else some sb
termination_by 2 * sizeOf outdata + 1
decreasing_by
  all_goals simp_wf
  all_goals omega

/-- `dm_write_tag_root`: one byte `is_dict`, one reserved byte, size-width
count of the entries that will be written (`None` values and, for dicts,
empty keys are skipped), then the entries; a value that is neither list
nor dict raises (`.items()` on a non-dict). -/
def dm_write_tag_root (ver : Ver) (s : DMStream) (outdata : PyVal) : Option DMStream :=
  match outdata with
  | .vlist items =>
      let num_tags := (items.filter (fun v => !v.isNone)).length
      let s1 := fwrite s ([0, 0] ++ beW ver num_tags)
      writeListEntries ver s1 items
  | .vdict entries =>
      let num_tags := (entries.filter
        (fun kv => decide (kv.1.length > 0) && !kv.2.isNone)).length
      let s1 := fwrite s ([1, 0] ++ beW ver num_tags)
      writeDictEntries ver s1 entries
  | _ => none
termination_by 2 * sizeOf outdata
decreasing_by
  all_goals simp_wf
  all_goals omega

/-- The list-group loop of `dm_write_tag_root`. -/
def writeListEntries (ver : Ver) (s : DMStream) : List PyVal → Option DMStream
  | [] => some s
  | x :: xs =>
      if x.isNone then writeListEntries ver s xs
      else
        match dm_write_tag_entry ver s x none with
        | none => none
        | some s2 => writeListEntries ver s2 xs
termination_by l => 2 * sizeOf l
decreasing_by
  all_goals simp_wf
  all_goals omega

/-- The dict-group loop of `dm_write_tag_root`. -/
def writeDictEntries (ver : Ver) (s : DMStream) : List (String × PyVal) → Option DMStream
  | [] => some s
  | (k, v) :: rest =>
      if decide (k.length > 0) && !v.isNone then
        match dm_write_tag_entry ver s v (some k) with
        | none => none
        | some s2 => writeDictEntries ver s2 rest
      else writeDictEntries ver s rest
termination_by l => 2 * sizeOf l
decreasing_by
  all_goals simp_wf
  all_goals omega

end

/-- `dm_write_header`: version tag, size-width file-size placeholder,
endianness 1; the root group; backpatch the file size with
`end - start + 4` (seeking to `start-12` under version 4, `start-8` under
version 3); seek to `end` and append the two zero sentinels. -/
def dm_write_header (file_version : Nat) (s : DMStream) (outdata : PyVal) :
    Option DMStream :=
  let ver : Ver := if file_version = 4 then .v4 else .v3
  let vnum := if file_version = 4 then 4 else 3
  let s1 := fwrite s (beBytes 4 vnum ++ beW ver 0 ++ beBytes 4 1)
  let start := s1.pos
  match dm_write_tag_root ver s1 outdata with
  | none => none
  | some s2 =>
      let endPos := s2.pos
      let s3 := fseek s2 (if file_version = 4 then start - 12 else start - 8)
      let s4 := fwrite s3 (beW ver (endPos - start + 4))
      let s5 := fseek s4 endPos
      some (fwrite s5 (beBytes 4 0 ++ beBytes 4 0))

theorem tag_data_chain (ver : Ver) (s : DMStream) (tid hdr : Nat) (payload : List Nat)
    (h : s.pos = s.data.length) :
    fseekEnd (fwrite (fseek (fwrite (fwrite s (pctBytes ++ beW ver 0 ++ beW ver tid)) payload)
        (if ver = .v4 then (fwrite s (pctBytes ++ beW ver 0 ++ beW ver tid)).pos - 16
         else (fwrite s (pctBytes ++ beW ver 0 ++ beW ver tid)).pos - 8))
        (beW ver (hdr + 1))) =
      ⟨s.data ++ pctBytes ++ beW ver (hdr + 1) ++ beW ver tid ++ payload,
        (s.data ++ pctBytes ++ beW ver (hdr + 1) ++ beW ver tid ++ payload).length⟩ := by
  have hA : (pctBytes ++ beW ver 0 ++ beW ver tid).length = 4 + 2 * sizeW ver := by
    simp [pctBytes]
    omega
  have h1 := fwrite_append s (pctBytes ++ beW ver 0 ++ beW ver tid) h
  rw [h1]
  have h2 := fwrite_append ⟨s.data ++ (pctBytes ++ beW ver 0 ++ beW ver tid),
      s.data.length + (pctBytes ++ beW ver 0 ++ beW ver tid).length⟩ payload
    (by simp)
  simp only [] at h2
  rw [h2]
  have hseek : (if ver = .v4 then
        s.data.length + (pctBytes ++ beW ver 0 ++ beW ver tid).length - 16
      else s.data.length + (pctBytes ++ beW ver 0 ++ beW ver tid).length - 8) =
      (s.data ++ pctBytes).length := by
    cases ver <;> simp [hA, sizeW, pctBytes]
  have hre : s.data ++ (pctBytes ++ beW ver 0 ++ beW ver tid) ++ payload =
      (s.data ++ pctBytes) ++ beW ver 0 ++ (beW ver tid ++ payload) := by
    simp [List.append_assoc]
  dsimp only [fseek]
  rw [hseek, hre]
  rw [fwrite_patch (s.data ++ pctBytes) (beW ver 0) (beW ver tid ++ payload)
    (beW ver (hdr + 1)) (by simp)]
  dsimp only [fseekEnd]
  simp [List.append_assoc]

/-- Structure of a successful `dm_write_tag_data` from an end-positioned
stream: the bytes appended are the delimiter, the backpatched size-width
header-length field holding `header + 1`, the size-width type id and the
payload, and the final position is end-of-stream. -/
theorem dm_write_tag_data_spec (ver : Ver) (s : DMStream) (value : PyVal) (s' : DMStream)
    (h : s.pos = s.data.length) (hw : dm_write_tag_data ver s value = some s') :
    ∃ ph : List Nat × Nat,
      encTyped ver (get_structdmtypes value).2 value = some ph ∧
      s'.data = s.data ++ pctBytes ++ beW ver (ph.2 + 1) ++
        beW ver (get_structdmtypes value).2 ++ ph.1 ∧
      s'.pos = s'.data.length := by
  unfold dm_write_tag_data at hw
  by_cases h0 : (get_structdmtypes value).2 = 0
  · simp only [h0, if_pos] at hw
    cases hw
  · simp only [h0, if_neg, not_false_iff] at hw
    rcases henc : encTyped ver (get_structdmtypes value).2 value with _ | ph
    · rw [henc] at hw
      cases hw
    · rw [henc] at hw
      simp only [] at hw
      injection hw with hw
      refine ⟨ph, rfl, ?_⟩
      rw [← hw, tag_data_chain ver s (get_structdmtypes value).2 ph.2 ph.1 h]
      exact ⟨by simp [List.append_assoc], by simp⟩

/-- Weakened entry specification used for nested entries: a successful
entry write from an end-positioned stream appends and stays
end-positioned. -/
def EntryAppends (ver : Ver) (x : PyVal) : Prop :=
  ∀ (s s' : DMStream) (name : Option String), s.pos = s.data.length →
    dm_write_tag_entry ver s x name = some s' →
    ∃ bs, s'.data = s.data ++ bs ∧ s'.pos = s'.data.length

theorem writeListEntries_spec (ver : Ver) (items : List PyVal)
    (hentry : ∀ x ∈ items, EntryAppends ver x) :
    ∀ s s', s.pos = s.data.length → writeListEntries ver s items = some s' →
      ∃ bs, s'.data = s.data ++ bs ∧ s'.pos = s'.data.length := by
  induction items with
  | nil =>
      intro s s' hpos hw
      unfold writeListEntries at hw
      injection hw with hw
      exact ⟨[], by simp [← hw], by simp [← hw, hpos]⟩
  | cons x xs ih =>
      intro s s' hpos hw
      unfold writeListEntries at hw
      by_cases hn : x.isNone = true
      · simp only [hn, if_pos] at hw
        exact ih (fun y hy => hentry y (List.mem_cons_of_mem _ hy)) s s' hpos hw
      · simp only [hn, if_neg, Bool.not_eq_true, not_false_iff] at hw
        rcases he : dm_write_tag_entry ver s x none with _ | s2
        · rw [he] at hw; cases hw
        · rw [he] at hw
          obtain ⟨bs1, hd1, hp1⟩ :=
            hentry x (List.mem_cons_self _ _) s s2 none hpos he
          obtain ⟨bs2, hd2, hp2⟩ :=
            ih (fun y hy => hentry y (List.mem_cons_of_mem _ hy)) s2 s' hp1 hw
          exact ⟨bs1 ++ bs2, by rw [hd2, hd1, List.append_assoc], hp2⟩

theorem writeDictEntries_spec (ver : Ver) (entries : List (String × PyVal))
    (hentry : ∀ kv ∈ entries, EntryAppends ver kv.2) :
    ∀ s s', s.pos = s.data.length → writeDictEntries ver s entries = some s' →
      ∃ bs, s'.data = s.data ++ bs ∧ s'.pos = s'.data.length := by
  induction entries with
  | nil =>
      intro s s' hpos hw
      unfold writeDictEntries at hw
      injection hw with hw
      exact ⟨[], by simp [← hw], by simp [← hw, hpos]⟩
  | cons kv rest ih =>
      intro s s' hpos hw
      unfold writeDictEntries at hw
      by_cases hc : (decide (kv.1.length > 0) && !kv.2.isNone) = true
      · simp only [hc, if_pos] at hw
        rcases he : dm_write_tag_entry ver s kv.2 (some kv.1) with _ | s2
        · rw [he] at hw; cases hw
        · rw [he] at hw
          obtain ⟨bs1, hd1, hp1⟩ :=
            hentry kv (List.mem_cons_self _ _) s s2 (some kv.1) hpos he
          obtain ⟨bs2, hd2, hp2⟩ :=
            ih (fun y hy => hentry y (List.mem_cons_of_mem _ hy)) s2 s' hp1 hw
          exact ⟨bs1 ++ bs2, by rw [hd2, hd1, List.append_assoc], hp2⟩
      · simp only [hc, if_neg, not_false_iff] at hw
        exact ih (fun y hy => hentry y (List.mem_cons_of_mem _ hy)) s s' hpos hw

/-- Tail of `dm_write_tag_entry` after the kind byte, name length and name
bytes have been written (stream `s2`, end-positioned): under version 4 the
size-width placeholder is written, the body follows, and the placeholder is
backpatched with the body length before seeking to end-of-stream; under
version 3 the body follows directly. -/
theorem entry_tail_spec (ver : Ver) (outdata : PyVal) (s2 s' : DMStream)
    (hroot : ∀ s0 s0', s0.pos = s0.data.length →
      dm_write_tag_root ver s0 outdata = some s0' →
      ∃ bs, s0'.data = s0.data ++ bs ∧ s0'.pos = s0'.data.length)
    (hpos2 : s2.pos = s2.data.length)
    (hw : (match (if (if isGroupVal outdata then 20 else 21) = 21 then
            dm_write_tag_data ver (if ver = .v4 then fwrite s2 (beW ver 0) else s2) outdata
          else
            dm_write_tag_root ver (if ver = .v4 then fwrite s2 (beW ver 0) else s2) outdata) with
        | none => none
        | some sb =>
            if ver = .v4 then
              some (fseekEnd (fwrite (fseek sb s2.pos) (beW ver (sb.pos - s2.pos - 8))))
            else some sb) = some s') :
    ∃ body, s'.data = s2.data ++ (if ver = .v4 then beW ver body.length else []) ++ body ∧
      s'.pos = s'.data.length := by
  have hbody : ∀ s3 sb, s3.pos = s3.data.length →
      (if (if isGroupVal outdata then 20 else 21) = 21 then
        dm_write_tag_data ver s3 outdata
      else dm_write_tag_root ver s3 outdata) = some sb →
      ∃ bodyX, sb.data = s3.data ++ bodyX ∧ sb.pos = sb.data.length := by
    intro s3 sb hpos3 hb
    by_cases hgroup : isGroupVal outdata = true
    · rw [if_pos hgroup] at hb
      norm_num at hb
      exact hroot s3 sb hpos3 hb
    · rw [if_neg hgroup] at hb
      norm_num at hb
      obtain ⟨ph, henc, hd, hp⟩ := dm_write_tag_data_spec ver s3 outdata sb hpos3 hb
      refine ⟨pctBytes ++ beW ver (ph.2 + 1) ++
        beW ver (get_structdmtypes outdata).2 ++ ph.1, ?_, hp⟩
      rw [hd]
      simp [List.append_assoc]
  cases ver with
  | v3 =>
      simp only [reduceCtorEq, reduceIte] at hw
      rcases hb : (if (if isGroupVal outdata then 20 else 21) = 21 then
          dm_write_tag_data .v3 s2 outdata
        else dm_write_tag_root .v3 s2 outdata) with _ | sb
      · rw [hb] at hw; cases hw
      · rw [hb] at hw
        injection hw with hw
        obtain ⟨bodyX, hd, hp⟩ := hbody s2 sb hpos2 hb
        subst hw
        exact ⟨bodyX, by rw [hd]; simp, hp⟩
  | v4 =>
      simp only [reduceIte] at hw
      rcases hb : (if (if isGroupVal outdata then 20 else 21) = 21 then
          dm_write_tag_data .v4 (fwrite s2 (beW .v4 0)) outdata
        else dm_write_tag_root .v4 (fwrite s2 (beW .v4 0)) outdata) with _ | sb
      · rw [hb] at hw; cases hw
      · rw [hb] at hw
        injection hw with hw
        have hpos3 : (fwrite s2 (beW .v4 0)).pos = (fwrite s2 (beW .v4 0)).data.length := by
          rw [fwrite_append s2 _ hpos2]
          simp
        obtain ⟨bodyX, hd, hp⟩ := hbody _ sb hpos3 hb
        rw [fwrite_append s2 _ hpos2] at hd
        simp only [] at hd
        have hlen : sb.pos = s2.data.length + 8 + bodyX.length := by
          rw [hp, hd]
          simp [sizeW]
          try omega
        have hval : sb.pos - s2.pos - 8 = bodyX.length := by
          rw [hlen, hpos2]
          omega
        refine ⟨bodyX, ?_, ?_⟩
        · rw [← hw]
          unfold fseek
          rw [hval]
          have : (⟨sb.data, s2.pos⟩ : DMStream) = ⟨s2.data ++ beW .v4 0 ++ bodyX, s2.data.length⟩ := by
            rw [hd, hpos2]
          rw [this]
          have hpatch := fwrite_patch s2.data (beW .v4 0) bodyX (beW .v4 bodyX.length) (by simp)
          rw [hpatch]
          unfold fseekEnd
          simp
        · rw [← hw]
          unfold fseekEnd
          simp

/-- Joint specification of `dm_write_tag_root` and `dm_write_tag_entry`
from an end-positioned stream, by strong induction on the value: a
successful root write appends and stays end-positioned, and a successful
entry write appends exactly the kind byte, the 2-byte name length, the
name bytes, then — under version 4 only — the size-width backpatched
entry byte-length field holding the body length, then the body bytes,
with the stream end-positioned afterwards. -/
theorem write_tree_spec : ∀ n : Nat, ∀ outdata : PyVal, sizeOf outdata ≤ n →
    (∀ ver s s', s.pos = s.data.length → dm_write_tag_root ver s outdata = some s' →
      ∃ bs, s'.data = s.data ++ bs ∧ s'.pos = s'.data.length) ∧
    (∀ ver s s' name, s.pos = s.data.length →
      dm_write_tag_entry ver s outdata name = some s' →
      ∃ nameBytes body,
        s'.data = s.data ++ ([if isGroupVal outdata then 20 else 21] ++
          beBytes 2 (match name with | some nm => nm.length | none => 0) ++ nameBytes ++
          (if ver = .v4 then beW ver body.length else []) ++ body) ∧
        s'.pos = s'.data.length) := by
  intro n
  induction n using Nat.strong_induction_on with
  | _ n ih =>
    intro outdata hsz
    have hroot : ∀ ver s s', s.pos = s.data.length →
        dm_write_tag_root ver s outdata = some s' →
        ∃ bs, s'.data = s.data ++ bs ∧ s'.pos = s'.data.length := by
      intro ver s s' hpos hw
      match outdata, hsz with
      | .vlist items, hsz =>
          unfold dm_write_tag_root at hw
          simp only [] at hw
          have hchild : ∀ x ∈ items, EntryAppends ver x := by
            intro x hx s0 s0' name0 hpos0 hw0
            have hxlt : sizeOf x < n := by
              have h1 := List.sizeOf_lt_of_mem hx
              have h2 : sizeOf (PyVal.vlist items) = 1 + sizeOf items := by simp
              omega
            obtain ⟨-, hent⟩ := ih (sizeOf x) hxlt x (le_refl _)
            obtain ⟨nb, body, hd, hp⟩ := hent ver s0 s0' name0 hpos0 hw0
            exact ⟨_, hd, hp⟩
          have hpos1 : (fwrite s ([0, 0] ++
              beW ver (items.filter (fun v => !v.isNone)).length)).pos =
              (fwrite s ([0, 0] ++
                beW ver (items.filter (fun v => !v.isNone)).length)).data.length := by
            rw [fwrite_append s _ hpos]
            simp
          obtain ⟨bs, hd, hp⟩ := writeListEntries_spec ver items hchild _ s' hpos1 hw
          rw [fwrite_append s _ hpos] at hd
          refine ⟨[0, 0] ++ beW ver (items.filter (fun v => !v.isNone)).length ++ bs, ?_, hp⟩
          rw [hd]
          simp [List.append_assoc]
      | .vdict entries, hsz =>
          unfold dm_write_tag_root at hw
          simp only [] at hw
          have hchild : ∀ kv ∈ entries, EntryAppends ver kv.2 := by
            intro kv hkv s0 s0' name0 hpos0 hw0
            have hxlt : sizeOf kv.2 < n := by
              have h1 := List.sizeOf_lt_of_mem hkv
              have h2 : sizeOf kv.2 < sizeOf kv := by
                rcases kv with ⟨a, b⟩
                simp
                try omega
              have h3 : sizeOf (PyVal.vdict entries) = 1 + sizeOf entries := by simp
              omega
            obtain ⟨-, hent⟩ := ih (sizeOf kv.2) hxlt kv.2 (le_refl _)
            obtain ⟨nb, body, hd, hp⟩ := hent ver s0 s0' name0 hpos0 hw0
            exact ⟨_, hd, hp⟩
          have hpos1 : (fwrite s ([1, 0] ++ beW ver (entries.filter
              (fun kv => decide (kv.1.length > 0) && !kv.2.isNone)).length)).pos =
              (fwrite s ([1, 0] ++ beW ver (entries.filter
                (fun kv => decide (kv.1.length > 0) && !kv.2.isNone)).length)).data.length := by
            rw [fwrite_append s _ hpos]
            simp
          obtain ⟨bs, hd, hp⟩ := writeDictEntries_spec ver entries hchild _ s' hpos1 hw
          rw [fwrite_append s _ hpos] at hd
          refine ⟨[1, 0] ++ beW ver (entries.filter
            (fun kv => decide (kv.1.length > 0) && !kv.2.isNone)).length ++ bs, ?_, hp⟩
          rw [hd]
          simp [List.append_assoc]
      | .vint v, hsz => unfold dm_write_tag_root at hw; cases hw
      | .vfloat b, hsz => unfold dm_write_tag_root at hw; cases hw
      | .vbool b, hsz => unfold dm_write_tag_root at hw; cases hw
      | .vstr u, hsz => unfold dm_write_tag_root at hw; cases hw
      | .vchunk a b c d, hsz => unfold dm_write_tag_root at hw; cases hw
      | .vstructArray a b, hsz => unfold dm_write_tag_root at hw; cases hw
      | .vtuple f, hsz => unfold dm_write_tag_root at hw; cases hw
      | .vnone, hsz => unfold dm_write_tag_root at hw; cases hw
      | .vother b, hsz => unfold dm_write_tag_root at hw; cases hw
    refine ⟨hroot, ?_⟩
    intro ver s s' name hpos hw
    unfold dm_write_tag_entry at hw
    simp only [] at hw
    rcases name with _ | nm
    · simp only [] at hw
      rw [fwrite_append s ([if isGroupVal outdata then 20 else 21] ++ beBytes 2 0) hpos] at hw
      rw [fwrite_append _ ([] : List Nat) (by simp)] at hw
      obtain ⟨body, hd, hp⟩ := entry_tail_spec ver outdata _ s' (hroot ver) (by simp) hw
      refine ⟨[], body, ?_, hp⟩
      rw [hd]
      simp [List.append_assoc]
    · by_cases hlen : nm.length > 0
      · rcases hnb : latin1Bytes nm with _ | nameBytes
        · simp only [hlen, reduceIte, hnb] at hw
          cases hw
        · simp only [hlen, reduceIte, hnb] at hw
          try simp only [] at hw
          rw [fwrite_append s ([if isGroupVal outdata then 20 else 21] ++
            beBytes 2 nm.length) hpos] at hw
          rw [fwrite_append _ nameBytes (by simp)] at hw
          obtain ⟨body, hd, hp⟩ := entry_tail_spec ver outdata _ s' (hroot ver) (by simp; omega) hw
          refine ⟨nameBytes, body, ?_, hp⟩
          rw [hd]
          simp [List.append_assoc]
      · simp only [hlen, reduceIte] at hw
        try simp only [] at hw
        rw [fwrite_append s ([if isGroupVal outdata then 20 else 21] ++
          beBytes 2 nm.length) hpos] at hw
        rw [fwrite_append _ ([] : List Nat) (by simp)] at hw
        obtain ⟨body, hd, hp⟩ := entry_tail_spec ver outdata _ s' (hroot ver) (by simp) hw
        refine ⟨[], body, ?_, hp⟩
        rw [hd]
        simp [List.append_assoc]

/-! ## Readers (`dm_read_types`, `dm_read_tag_data`, `dm_read_tag_entry`)

Readers never seek; they are embedded as functions consuming a byte list
from the front and returning the decoded value, the payload header count
and the remaining bytes.  `none` embeds a failing assert, a short read or
a `KeyError` into the dispatch table. -/

/-- Values produced by the read path: Python ints, floats (by pattern),
bools, `array.array` (with its typecode), `StructArray` (typecodes as
returned by `get_structchar_for_dmtype`, possibly absent), the string of
`dm_read_string` (raw UTF-16LE bytes), tuples, the coerced name strings of
`dm_read_tag_entry` (code points), and groups. -/
inductive RVal where
  | rint (v : Int)
  | rfloat (bits : Nat)
  | rbool (b : Bool)
  | rarray (tc : Char) (elems : List Int)
  | rstructArray (tcs : List (Option Char)) (raw : List Nat)
  | rstr16 (raw : List Nat)
  | rtuple (items : List RVal)
  | rstr (codes : List Nat)
  | rdict (entries : List (List Char × RVal))
  | rlist (items : List RVal)

/-- Consume exactly `n` bytes (`get_from_file` asserts the full read). -/
def getBytes (n : Nat) (l : List Nat) : Option (List Nat × List Nat) :=
  if n ≤ l.length then some (l.take n, l.drop n) else none

/-- Read a big-endian unsigned field of width `w`. -/
def readBE (w : Nat) (l : List Nat) : Option (Nat × List Nat) :=
  (getBytes w l).map (fun p => (beVal p.1, p.2))

/-- `dm_read_string` (`dm_read_types[18]`): size-width length then the raw
UTF-16LE bytes; payload header count 1. -/
def dm_read_string (ver : Ver) (l : List Nat) : Option (RVal × Nat × List Nat) :=
  match readBE (sizeW ver) l with
  | none => none
  | some (slen, l1) =>
      match getBytes slen l1 with
      | none => none
      | some (raws, l2) => some (.rstr16 raws, 1, l2)

/-- The field loop of `dm_read_struct_types`: `nfields` pairs of size-width
`(len, dtype)`, asserting `len == 0` and `dtype != 15` (no structs of
structs). -/
def readStructTypesLoop (ver : Ver) : Nat → List Nat → Option (List Nat × List Nat)
  | 0, l => some ([], l)
  | n + 1, l =>
      match readBE (sizeW ver) l with
      | none => none
      | some (len0, l1) =>
          match readBE (sizeW ver) l1 with
          | none => none
          | some (dt, l2) =>
              if len0 = 0 ∧ dt ≠ 15 then
                match readStructTypesLoop ver n l2 with
                | none => none
                | some (rest, l3) => some (dt :: rest, l3)
              else none

/-- `dm_read_struct_types`: size-width `(len, nfields)` with `len == 0`
asserted, then the field types; returns the types and the header count
`2 + 2 * nfields`. -/
def dm_read_struct_types (ver : Ver) (l : List Nat) :
    Option (List Nat × Nat × List Nat) :=
  match readBE (sizeW ver) l with
  | none => none
  | some (len0, l1) =>
      match readBE (sizeW ver) l1 with
      | none => none
      | some (nf, l2) =>
          if len0 = 0 then
            match readStructTypesLoop ver nf l2 with
            | none => none
            | some (types, l3) => some (types, 2 + 2 * nf, l3)
          else none

/-- Element loop of `dm_read_array` (`ret.fromfile(f, alen)`): decode each
element per the array typecode (ints signed or unsigned by two's
complement; float elements are kept as their patterns). -/
def readElems (c : Char) : Nat → List Nat → Option (List Int × List Nat)
  | 0, l => some ([], l)
  | n + 1, l =>
      match getBytes (calcsizeChar c) l with
      | none => none
      | some (bytes, l1) =>
          match readElems c n l1 with
          | none => none
          | some (vs, l2) =>
              some ((if signedChar c then unpackSigned (calcsizeChar c) bytes
                     else unpackUnsigned bytes) :: vs, l2)

/-- Native `struct.calcsize` of the joined struct-array typecodes, where
unresolved dm types contribute the empty string. -/
def calcsizeJoinOpt (tcs : List (Option Char)) : Nat :=
  calcsizeJoin (tcs.filterMap id)

/-- `dm_read_array` (`dm_read_types[20]`): size-width element dm type; for
`struct` (15) the struct-types sub-header, size-width count and the raw
`StructArray` bytes (header `2 + struct_header`); otherwise the typecode
lookup (an unresolved code raises in `array.array`), size-width count and
the elements (header 2). -/
def dm_read_array (ver : Ver) (l : List Nat) : Option (RVal × Nat × List Nat) :=
  match readBE (sizeW ver) l with
  | none => none
  | some (dtype, l1) =>
      if dtype = 15 then
        match dm_read_struct_types ver l1 with
        | none => none
        | some (types, struct_header, l2) =>
            match readBE (sizeW ver) l2 with
            | none => none
            | some (alen, l3) =>
                let tcs := types.map get_structchar_for_dmtype
                match getBytes (alen * calcsizeJoinOpt tcs) l3 with
                | none => none
                | some (raw, l4) => some (.rstructArray tcs raw, 2 + struct_header, l4)
      else
        match get_structchar_for_dmtype dtype with
        | none => none
        | some c =>
            match readBE (sizeW ver) l1 with
            | none => none
            | some (alen, l2) =>
                match readElems c alen l2 with
                | none => none
                | some (elems, l3) => some (.rarray c elems, 2, l3)

/-- `dm_read_bool` lifted to `RVal`. -/
def dm_read_bool_r (l : List Nat) : Option (RVal × Nat × List Nat) :=
  (dm_read_bool l).map (fun p => (.rbool p.1, p.2.1, p.2.2))

/-- The non-struct part of the `dm_read_types` dispatch (struct fields are
guaranteed non-struct by the assert in `dm_read_struct_types`). -/
def dmReadTypedBase (ver : Ver) (t : Nat) (l : List Nat) :
    Option (RVal × Nat × List Nat) :=
  if t = 8 then dm_read_bool_r l
  else if t = 18 then dm_read_string ver l
  else if t = 20 then dm_read_array ver l
  else if t = 2 ∨ t = 3 ∨ t = 4 ∨ t = 5 ∨ t = 9 ∨ t = 10 ∨ t = 11 ∨ t = 12 then
    (standard_dm_read t l).map (fun p => (.rint p.1, p.2.1, p.2.2))
  else if t = 6 ∨ t = 7 then
    (standard_dm_read t l).map (fun p => (.rfloat p.1.toNat, p.2.1, p.2.2))
  else none

/-- Field loop of `dm_read_struct`
(`for t in types: d, h = dm_read_types[t](f)`). -/
def readFieldsBase (ver : Ver) : List Nat → List Nat → Option (List RVal × List Nat)
  | [], l => some ([], l)
  | t :: ts, l =>
      match dmReadTypedBase ver t l with
      | none => none
      | some (v, _, l1) =>
          match readFieldsBase ver ts l1 with
          | none => none
          | some (vs, l2) => some (v :: vs, l2)

/-- The 4-element fold of `dm_read_struct`: a struct of exactly 4 values is
returned as `((r0, r1), (r2, r3))`. -/
def fold4 (fields : List RVal) : List RVal :=
  match fields with
  | [a, b, c, d] => [.rtuple [a, b], .rtuple [c, d]]
  | _ => fields

/-- `dm_read_struct` (`dm_read_types[15]`): the struct types, then each
field by dispatch, folded with `fold4` and returned as a tuple. -/
def dm_read_struct (ver : Ver) (l : List Nat) : Option (RVal × Nat × List Nat) :=
  match dm_read_struct_types ver l with
  | none => none
  | some (types, header, l1) =>
      match readFieldsBase ver types l1 with
      | none => none
      | some (fields, l2) => some (.rtuple (fold4 fields), header, l2)

/-- The full `dm_read_types` dispatch. -/
def dmReadTyped (ver : Ver) (t : Nat) (l : List Nat) : Option (RVal × Nat × List Nat) :=
  if t = 15 then dm_read_struct ver l else dmReadTypedBase ver t l

/-- `dm_read_tag_data`: the 4-byte `"%%%%"` delimiter, the size-width
header length, the size-width type id, the typed payload, and the assert
`header + 1 == header_len`. -/
def dm_read_tag_data (ver : Ver) (l : List Nat) : Option (RVal × List Nat) :=
  match getBytes 4 l with
  | none => none
  | some (delim, l1) =>
      if delim = pctBytes then
        match readBE (sizeW ver) l1 with
        | none => none
        | some (header_len, l2) =>
            match readBE (sizeW ver) l2 with
            | none => none
            | some (data_type, l3) =>
                match dmReadTyped ver data_type l3 with
                | none => none
                | some (ret, header, l4) =>
                    if header + 1 = header_len then some (ret, l4) else none
      else none

theorem getBytes_eq {n : Nat} {l a r : List Nat} (h : getBytes n l = some (a, r)) :
    a = l.take n ∧ r = l.drop n ∧ n ≤ l.length := by
  unfold getBytes at h
  split at h
  · injection h with h
    rw [Prod.mk.injEq] at h
    exact ⟨h.1.symm, h.2.symm, by assumption⟩
  · cases h

theorem readBE_eq {w : Nat} {l : List Nat} {v : Nat} {r : List Nat}
    (h : readBE w l = some (v, r)) :
    v = beVal (l.take w) ∧ r = l.drop w ∧ w ≤ l.length := by
  unfold readBE at h
  rcases hg : getBytes w l with _ | p
  · rw [hg] at h; cases h
  · rw [hg] at h
    simp only [Option.map_some'] at h
    injection h with h
    rw [Prod.mk.injEq] at h
    obtain ⟨ha, hr, hle⟩ := getBytes_eq hg
    exact ⟨by rw [← h.1, ha], by rw [← h.2, hr], hle⟩

theorem encTyped_header_sizes (ver : Ver) (value : PyVal) (ph : List Nat × Nat)
    (h : encTyped ver (get_structdmtypes value).2 value = some ph) :
    (∀ n : Int, value = .vint n → ph.2 = 0) ∧
    (∀ bits, value = .vfloat bits → ph.2 = 0) ∧
    (∀ b, value = .vbool b → ph.2 = 0) ∧
    (∀ units, value = .vstr units → ph.2 = 2) ∧
    (∀ sh isz tc el, value = .vchunk sh isz tc el → ph.2 = 2) ∧
    (∀ tcs raw, value = .vstructArray tcs raw → ph.2 = (2 + 2 * tcs.length) + 2) := by
  refine ⟨?_, ?_, ?_, ?_, ?_, ?_⟩
  · rintro n rfl
    by_cases hr : ¬ (-(2 ^ 31) < n ∧ n < 2 ^ 31 - 1)
    · have hid : (get_structdmtypes (.vint n)).2 = 11 := by
        simp only [get_structdmtypes]
        rw [if_pos hr]
      rw [hid, encTyped.eq_def] at h
      norm_num at h
      obtain ⟨bs, hbs, hpair⟩ := h
      rw [← hpair]
    · have hid : (get_structdmtypes (.vint n)).2 = 3 := by
        simp only [get_structdmtypes]
        rw [if_neg hr]
      rw [hid, encTyped.eq_def] at h
      norm_num at h
      obtain ⟨bs, hbs, hpair⟩ := h
      rw [← hpair]
  · rintro bits rfl
    have hid : (get_structdmtypes (.vfloat bits)).2 = 7 := rfl
    rw [hid, encTyped.eq_def] at h
    norm_num at h
    obtain ⟨bs, hbs, hpair⟩ := h
    rw [← hpair]
  · rintro b rfl
    have hid : (get_structdmtypes (.vbool b)).2 = 8 := rfl
    rw [hid, encTyped.eq_def] at h
    norm_num at h
    obtain ⟨bs, hbs, hpair⟩ := h
    rw [← hpair]
  · rintro units rfl
    have hid : (get_structdmtypes (.vstr units)).2 = 20 := rfl
    rw [hid, encTyped.eq_def] at h
    norm_num at h
    simp only [dm_write_array] at h
    have hH : get_dmtype_for_structchar 'H' = 4 := rfl
    rw [hH] at h
    norm_num at h
    rw [← h]
  · rintro sh isz tc el rfl
    have hid : (get_structdmtypes (.vchunk sh isz tc el)).2 = 20 := rfl
    rw [hid, encTyped.eq_def] at h
    norm_num at h
    simp only [dm_write_array, DataChunkWriter_write] at h
    split at h
    · cases h
    · injection h with h
      rw [← h]
  · rintro tcs raw rfl
    have hid : (get_structdmtypes (.vstructArray tcs raw)).2 = 20 := rfl
    rw [hid, encTyped.eq_def] at h
    norm_num at h
    simp only [dm_write_array, StructArray_write] at h
    split at h
    · cases h
    · split at h
      · cases h
      · split at h
        · cases h
        · injection h with h
          rw [← h]
          simp [dm_write_struct_types]

/-- C1 amended: on write, the size-width header-length field following the
4-byte `"%%%%"` delimiter is backpatched to payload header size + 1, where
the payload header size is the value returned by the per-type writer and
equals 0 for scalars and bool, 2 for homogeneous arrays, and
`(2 + 2 × field_count) + 2` (i.e. `4 + 2 × field_count`, the struct-types
sub-header plus the array's own type and length words) for struct arrays —
not `2 + 2 × field_count` as claimed; the matching read succeeds only when
the stored header length equals the reader's computed header count + 1. -/
theorem C1_header_backpatch_amended :
    (∀ ver (s s' : DMStream) value, s.pos = s.data.length →
      dm_write_tag_data ver s value = some s' →
      ∃ ph : List Nat × Nat,
        encTyped ver (get_structdmtypes value).2 value = some ph ∧
        (s'.data.drop (s.data.length + 4)).take (sizeW ver) = beW ver (ph.2 + 1) ∧
        (∀ n : Int, value = .vint n → ph.2 = 0) ∧
        (∀ bits, value = .vfloat bits → ph.2 = 0) ∧
        (∀ b, value = .vbool b → ph.2 = 0) ∧
        (∀ units, value = .vstr units → ph.2 = 2) ∧
        (∀ sh isz tc el, value = .vchunk sh isz tc el → ph.2 = 2) ∧
        (∀ tcs raw, value = .vstructArray tcs raw → ph.2 = (2 + 2 * tcs.length) + 2)) ∧
    (∀ ver (l : List Nat) v rest, dm_read_tag_data ver l = some (v, rest) →
      ∃ ret hdr l4,
        dmReadTyped ver (beVal (((l.drop 4).drop (sizeW ver)).take (sizeW ver)))
          (((l.drop 4).drop (sizeW ver)).drop (sizeW ver)) = some (ret, hdr, l4) ∧
        beVal ((l.drop 4).take (sizeW ver)) = hdr + 1) := by
  constructor
  · intro ver s s' value hpos hw
    obtain ⟨ph, henc, hd, hp⟩ := dm_write_tag_data_spec ver s value s' hpos hw
    obtain ⟨h1, h2, h3, h4, h5, h6⟩ := encTyped_header_sizes ver value ph henc
    refine ⟨ph, henc, ?_, h1, h2, h3, h4, h5, h6⟩
    rw [hd]
    have hre : s.data ++ pctBytes ++ beW ver (ph.2 + 1) ++
        beW ver (get_structdmtypes value).2 ++ ph.1 =
        (s.data ++ pctBytes) ++ (beW ver (ph.2 + 1) ++
          (beW ver (get_structdmtypes value).2 ++ ph.1)) := by
      simp [List.append_assoc]
    rw [hre]
    have hlen : s.data.length + 4 = (s.data ++ pctBytes).length := by
      simp [pctBytes]
    rw [hlen, List.drop_left]
    have hw1 : (beW ver (ph.2 + 1)).length = sizeW ver := beW_length _ _
    nth_rewrite 1 [← hw1]
    exact List.take_left _ _
  · intro ver l v rest h
    unfold dm_read_tag_data at h
    rcases hg : getBytes 4 l with _ | ⟨delim, l1⟩
    · rw [hg] at h; cases h
    · rw [hg] at h
      simp only [] at h
      obtain ⟨ha1, hr1, hle1⟩ := getBytes_eq hg
      by_cases hdelim : delim = pctBytes
      · rw [if_pos hdelim] at h
        rcases hb1 : readBE (sizeW ver) l1 with _ | ⟨header_len, l2⟩
        · rw [hb1] at h; cases h
        · rw [hb1] at h
          simp only [] at h
          obtain ⟨hv2, hr2, hle2⟩ := readBE_eq hb1
          rcases hb2 : readBE (sizeW ver) l2 with _ | ⟨data_type, l3⟩
          · rw [hb2] at h; cases h
          · rw [hb2] at h
            simp only [] at h
            obtain ⟨hv3, hr3, hle3⟩ := readBE_eq hb2
            rcases ht : dmReadTyped ver data_type l3 with _ | ⟨ret, hdr, l4⟩
            · rw [ht] at h; cases h
            · rw [ht] at h
              simp only [] at h
              split at h
              · rename_i hhdr
                refine ⟨ret, hdr, l4, ?_, ?_⟩
                · rw [← hr1, ← hr2, ← hv3, ← hr3]
                  exact ht
                · rw [← hr1, ← hv2, hhdr]
              · cases h
      · rw [if_neg hdelim] at h
        cases h

set_option maxHeartbeats 1000000 in
/-- C1 counterexample: for the struct array with typecodes `['h','h','h']`
(3 fields) and empty raw data, the per-type writer returns payload header
size 10 and the backpatched field holds 11 — the claimed
`2 + 2 × field_count = 8` is wrong. -/
theorem C1_counterexample :
    dm_write_tag_data .v3 ⟨[], 0⟩ (.vstructArray ['h', 'h', 'h'] []) =
        some ⟨pctBytes ++ beW .v3 11 ++ beW .v3 20 ++
          (beW .v3 15 ++ beW .v3 0 ++ beW .v3 3 ++ (beW .v3 0 ++ beW .v3 2) ++
           (beW .v3 0 ++ beW .v3 2) ++ (beW .v3 0 ++ beW .v3 2) ++ beW .v3 0), 52⟩ ∧
      encTyped .v3 20 (.vstructArray ['h', 'h', 'h'] []) =
        some (beW .v3 15 ++ beW .v3 0 ++ beW .v3 3 ++ (beW .v3 0 ++ beW .v3 2) ++
          (beW .v3 0 ++ beW .v3 2) ++ (beW .v3 0 ++ beW .v3 2) ++ beW .v3 0, 10) ∧
      (10 : Nat) ≠ 2 + 2 * 3 := by
  have he : encTyped .v3 20 (.vstructArray ['h', 'h', 'h'] []) =
      some (beW .v3 15 ++ beW .v3 0 ++ beW .v3 3 ++ (beW .v3 0 ++ beW .v3 2) ++
        (beW .v3 0 ++ beW .v3 2) ++ (beW .v3 0 ++ beW .v3 2) ++ beW .v3 0, 10) := by
    rw [encTyped.eq_def]
    decide
  refine ⟨?_, he, by decide⟩
  have hid : (get_structdmtypes (PyVal.vstructArray ['h', 'h', 'h'] [])).2 = 20 := rfl
  unfold dm_write_tag_data
  simp only []
  rw [hid, he]
  decide

set_option maxHeartbeats 1000000 in
/-- Witness for the amended C1: a scalar long write (payload header 0, the
field holds 1) and a read of the bytes it produced. -/
theorem C1_witness :
    ((⟨[37, 37, 37, 37, 0, 0, 0, 1, 0, 0, 0, 3, 5, 0, 0, 0], 16⟩ : DMStream).data.drop
        ((⟨[], 0⟩ : DMStream).data.length + 4)).take (sizeW .v3) = beW .v3 (0 + 1) ∧
      beVal (([37, 37, 37, 37, 0, 0, 0, 1, 0, 0, 0, 3, 5, 0, 0, 0].drop 4).take (sizeW .v3)) =
        0 + 1 := by
  have he : encTyped .v3 3 (.vint 5) = some ([5, 0, 0, 0], 0) := by
    rw [encTyped.eq_def]; decide
  have hid : (get_structdmtypes (PyVal.vint 5)).2 = 3 := rfl
  have hwrite : dm_write_tag_data .v3 ⟨[], 0⟩ (.vint 5) =
      some ⟨[37, 37, 37, 37, 0, 0, 0, 1, 0, 0, 0, 3, 5, 0, 0, 0], 16⟩ := by
    unfold dm_write_tag_data
    simp only []
    rw [hid, he]
    decide
  have hread : dm_read_tag_data .v3 [37, 37, 37, 37, 0, 0, 0, 1, 0, 0, 0, 3, 5, 0, 0, 0] =
      some (.rint 5, []) := rfl
  obtain ⟨ph, henc, hfield, hints, -⟩ :=
    C1_header_backpatch_amended.1 .v3 ⟨[], 0⟩ _ (.vint 5) rfl hwrite
  obtain ⟨ret, hdr, l4, htyped, hstored⟩ :=
    C1_header_backpatch_amended.2 .v3 _ (.rint 5) [] hread
  constructor
  · rw [hints 5 rfl] at hfield
    exact hfield
  · have h2 : dmReadTyped .v3
        (beVal ((([37, 37, 37, 37, 0, 0, 0, 1, 0, 0, 0, 3, 5, 0, 0, 0].drop 4).drop
          (sizeW .v3)).take (sizeW .v3)))
        ((([37, 37, 37, 37, 0, 0, 0, 1, 0, 0, 0, 3, 5, 0, 0, 0].drop 4).drop
          (sizeW .v3)).drop (sizeW .v3)) = some (.rint 5, 0, []) := rfl
    have h3 := h2.symm.trans htyped
    injection h3 with h3
    rw [Prod.mk.injEq] at h3
    obtain ⟨-, h3⟩ := h3
    rw [Prod.mk.injEq] at h3
    obtain ⟨h30, -⟩ := h3
    rw [← h30] at hstored
    exact hstored

/-! ## C2: the version-4 entry byte-length backpatch -/

/-- C2 counterexample: writing the scalar entry `5` (no name) under
version 4 backpatches the size-width field at offset 3 with
`end - start - 8 = 35 - 3 - 8 = 24`, not the claimed
`end - start - 2*size_width = 35 - 3 - 16 = 16`. -/
theorem C2_counterexample :
    dm_write_tag_entry .v4 ⟨[], 0⟩ (.vint 5) none =
      some ⟨[21, 0, 0, 0, 0, 0, 0, 0, 0, 0, 24, 37, 37, 37, 37,
             0, 0, 0, 0, 0, 0, 0, 1, 0, 0, 0, 0, 0, 0, 0, 3, 5, 0, 0, 0], 35⟩ ∧
    (([21, 0, 0, 0, 0, 0, 0, 0, 0, 0, 24, 37, 37, 37, 37,
       0, 0, 0, 0, 0, 0, 0, 1, 0, 0, 0, 0, 0, 0, 0, 3, 5, 0, 0, 0].drop 3).take 8 =
        beW .v4 (35 - 3 - 8)) ∧
    ¬ (([21, 0, 0, 0, 0, 0, 0, 0, 0, 0, 24, 37, 37, 37, 37,
        0, 0, 0, 0, 0, 0, 0, 1, 0, 0, 0, 0, 0, 0, 0, 3, 5, 0, 0, 0].drop 3).take 8 =
        beW .v4 (35 - 3 - 16)) := by
  have he : encTyped .v4 3 (.vint 5) = some ([5, 0, 0, 0], 0) := by
    rw [encTyped.eq_def]; decide
  refine ⟨?_, by decide, by decide⟩
  rw [dm_write_tag_entry.eq_def]
  simp only []
  unfold dm_write_tag_data
  simp only []
  rw [show (get_structdmtypes (PyVal.vint 5)).2 = 3 from rfl]
  rw [he]
  decide

/-- If the data of `s'` is `pre` followed by the size-width word holding
the body length and the body itself, then the word stored at offset
`pre.length` equals `.length of data - pre.length - 8`, and that value is
the body length. -/
theorem entry_field_aux (s' : DMStream) (pre body : List Nat) (k : Nat)
    (hk : pre.length = k)
    (hd : s'.data = pre ++ (beW .v4 body.length ++ body)) :
    (s'.data.drop k).take (sizeW .v4) = beW .v4 (s'.data.length - k - 8) ∧
    s'.data.length - k - 8 = body.length := by
  have h1 : s'.data.length - k - 8 = body.length := by
    rw [hd, List.length_append, hk]
    simp [sizeW]
  refine ⟨?_, h1⟩
  rw [h1, hd, List.drop_left' hk]
  exact List.take_left' (beW_length .v4 body.length)

/-- C2 (amended): a successful `dm_write_tag_entry` from an end-positioned
stream appends the kind byte, the 2-byte name length and the name bytes;
under version 4 the size-width field written at `start` (the offset right
after the name bytes) is backpatched with `end - start - 8` — the
size-width constant 8, not `2 x size_width = 16` — which equals the body
length; under version 3 no such field is written and the body follows the
name directly.  The stream ends at end-of-stream in both versions. -/
theorem C2_entry_backpatch_amended (ver : Ver) (s s' : DMStream) (v : PyVal)
    (name : Option String) (hpos : s.pos = s.data.length)
    (hw : dm_write_tag_entry ver s v name = some s') :
    ∃ nameBytes body,
      s'.data = s.data ++ ([if isGroupVal v then 20 else 21] ++
        beBytes 2 (match name with | some nm => nm.length | none => 0) ++ nameBytes ++
        (if ver = .v4 then beW ver body.length else []) ++ body) ∧
      s'.pos = s'.data.length ∧
      (ver = .v4 →
        (s'.data.drop (s.data.length + 3 + nameBytes.length)).take (sizeW ver) =
          beW ver (s'.data.length - (s.data.length + 3 + nameBytes.length) - 8) ∧
        s'.data.length - (s.data.length + 3 + nameBytes.length) - 8 = body.length) := by
  obtain ⟨nameBytes, body, hd, hp⟩ :=
    (write_tree_spec (sizeOf v) v (le_refl _)).2 ver s s' name hpos hw
  refine ⟨nameBytes, body, hd, hp, ?_⟩
  intro hv4
  subst hv4
  simp only [reduceIte] at hd
  refine entry_field_aux s' (s.data ++ [if isGroupVal v then 20 else 21] ++
    beBytes 2 (match name with | some nm => nm.length | none => 0) ++ nameBytes)
    body _ ?_ ?_
  · rcases name with _ | nm <;> (simp; try omega)
  · refine hd.trans ?_
    rcases name with _ | nm <;> simp [List.append_assoc]

/-- Witness for the amended C2: the version-4 entry for the scalar `5`,
where the backpatched field holds the body length 24, and the version-3
entry for the same value, whose data has no byte-length field. -/
theorem C2_witness :
    (∃ nameBytes body,
      ([21, 0, 0, 0, 0, 0, 0, 0, 0, 0, 24, 37, 37, 37, 37,
        0, 0, 0, 0, 0, 0, 0, 1, 0, 0, 0, 0, 0, 0, 0, 3, 5, 0, 0, 0] : List Nat) =
        [] ++ ([if isGroupVal (.vint 5) then 20 else 21] ++
          beBytes 2 (match (none : Option String) with | some nm => nm.length | none => 0) ++
          nameBytes ++
          (if Ver.v4 = .v4 then beW .v4 body.length else []) ++ body) ∧
      (35 : Nat) = 35 ∧
      (Ver.v4 = .v4 →
        (([21, 0, 0, 0, 0, 0, 0, 0, 0, 0, 24, 37, 37, 37, 37,
           0, 0, 0, 0, 0, 0, 0, 1, 0, 0, 0, 0, 0, 0, 0, 3, 5, 0, 0, 0] : List Nat).drop
            (0 + 3 + nameBytes.length)).take (sizeW .v4) =
          beW .v4 (35 - (0 + 3 + nameBytes.length) - 8) ∧
        35 - (0 + 3 + nameBytes.length) - 8 = body.length)) := by
  have hw : dm_write_tag_entry .v4 ⟨[], 0⟩ (.vint 5) none =
      some ⟨[21, 0, 0, 0, 0, 0, 0, 0, 0, 0, 24, 37, 37, 37, 37,
             0, 0, 0, 0, 0, 0, 0, 1, 0, 0, 0, 0, 0, 0, 0, 3, 5, 0, 0, 0], 35⟩ := by
    have he : encTyped .v4 3 (.vint 5) = some ([5, 0, 0, 0], 0) := by
      rw [encTyped.eq_def]; decide
    rw [dm_write_tag_entry.eq_def]
    simp only []
    unfold dm_write_tag_data
    simp only []
    rw [show (get_structdmtypes (PyVal.vint 5)).2 = 3 from rfl]
    rw [he]
    decide
  obtain ⟨nameBytes, body, hd, hp, hfield⟩ :=
    C2_entry_backpatch_amended .v4 ⟨[], 0⟩ _ (.vint 5) none rfl hw
  exact ⟨nameBytes, body, hd, rfl, hfield⟩

/-! ## C7: unmapped values and structs of structs -/

/-- C7 counterexample: the unmapped value with 32-bit pattern 1065353216
gets the fallback dm type 6 from `get_structdmtypes` and is silently
written under type 6 (the float32 writer) with no error; a struct of
structs is written successfully — bytes are committed — and only the
read of those bytes fails (the `dtype != 15` assert in
`dm_read_struct_types`). -/
theorem C7_counterexample :
    (get_structdmtypes (.vother 1065353216)).2 = 6 ∧
    dm_write_tag_data .v3 ⟨[], 0⟩ (.vother 1065353216) =
      some ⟨[37, 37, 37, 37, 0, 0, 0, 1, 0, 0, 0, 6, 0, 0, 128, 63], 16⟩ ∧
    dm_write_tag_data .v3 ⟨[], 0⟩ (.vtuple [.vint 1, .vtuple [.vint 2, .vint 3]]) =
      some ⟨(pctBytes ++ beW .v3 7 ++ beW .v3 15 ++ (beW .v3 0 ++ beW .v3 2 ++ (beW .v3 0 ++ beW .v3 3) ++ (beW .v3 0 ++ beW .v3 15) ++ [1, 0, 0, 0] ++ (beW .v3 0 ++ beW .v3 2 ++ (beW .v3 0 ++ beW .v3 3) ++ (beW .v3 0 ++ beW .v3 3) ++ [2, 0, 0, 0] ++ [3, 0, 0, 0]))), 72⟩ ∧
    dm_read_tag_data .v3 (pctBytes ++ beW .v3 7 ++ beW .v3 15 ++ (beW .v3 0 ++ beW .v3 2 ++ (beW .v3 0 ++ beW .v3 3) ++ (beW .v3 0 ++ beW .v3 15) ++ [1, 0, 0, 0] ++ (beW .v3 0 ++ beW .v3 2 ++ (beW .v3 0 ++ beW .v3 3) ++ (beW .v3 0 ++ beW .v3 3) ++ [2, 0, 0, 0] ++ [3, 0, 0, 0]))) = none := by
  have e1 : encTyped .v3 3 (.vint 1) = some ([1, 0, 0, 0], 0) := by
    rw [encTyped.eq_def]; decide
  have e2 : encTyped .v3 3 (.vint 2) = some ([2, 0, 0, 0], 0) := by
    rw [encTyped.eq_def]; decide
  have e3 : encTyped .v3 3 (.vint 3) = some ([3, 0, 0, 0], 0) := by
    rw [encTyped.eq_def]; decide
  have fnil : encFields .v3 [] [] = some [] := by
    rw [encFields.eq_def]
  have f0 : encFields .v3 [3] [.vint 3] = some [3, 0, 0, 0] := by
    rw [encFields.eq_def]
    simp only []
    rw [e3, fnil]
    decide
  have f1 : encFields .v3 [3, 3] [.vint 2, .vint 3] =
      some [2, 0, 0, 0, 3, 0, 0, 0] := by
    rw [encFields.eq_def]
    simp only []
    rw [e2, f0]
    decide
  have hfl_i : flattenFields [PyVal.vint 2, PyVal.vint 3] =
      [PyVal.vint 2, PyVal.vint 3] := rfl
  have hmap_i : List.map (fun x => (get_structdmtypes x).2)
      [PyVal.vint 2, PyVal.vint 3] = [3, 3] := rfl
  have ws_i : dm_write_struct .v3 [.vint 2, .vint 3] =
      some ((beW .v3 0 ++ beW .v3 2 ++ (beW .v3 0 ++ beW .v3 3) ++ (beW .v3 0 ++ beW .v3 3) ++ [2, 0, 0, 0] ++ [3, 0, 0, 0]), 6) := by
    rw [dm_write_struct.eq_def]
    simp only []
    rw [hfl_i, hmap_i, f1]
    decide
  have ei : encTyped .v3 15 (.vtuple [.vint 2, .vint 3]) =
      some ((beW .v3 0 ++ beW .v3 2 ++ (beW .v3 0 ++ beW .v3 3) ++ (beW .v3 0 ++ beW .v3 3) ++ [2, 0, 0, 0] ++ [3, 0, 0, 0]), 6) := by
    rw [encTyped.eq_def]
    norm_num
    exact ws_i
  have f2 : encFields .v3 [15] [.vtuple [.vint 2, .vint 3]] =
      some (beW .v3 0 ++ beW .v3 2 ++ (beW .v3 0 ++ beW .v3 3) ++ (beW .v3 0 ++ beW .v3 3) ++ [2, 0, 0, 0] ++ [3, 0, 0, 0]) := by
    rw [encFields.eq_def]
    simp only []
    rw [ei, fnil]
    decide
  have f3 : encFields .v3 [3, 15] [.vint 1, .vtuple [.vint 2, .vint 3]] =
      some ([1, 0, 0, 0] ++ (beW .v3 0 ++ beW .v3 2 ++ (beW .v3 0 ++ beW .v3 3) ++ (beW .v3 0 ++ beW .v3 3) ++ [2, 0, 0, 0] ++ [3, 0, 0, 0])) := by
    rw [encFields.eq_def]
    simp only []
    rw [e1, f2]
  have hfl_o : flattenFields [PyVal.vint 1, PyVal.vtuple [PyVal.vint 2, PyVal.vint 3]] =
      [PyVal.vint 1, PyVal.vtuple [PyVal.vint 2, PyVal.vint 3]] := rfl
  have hmap_o : List.map (fun x => (get_structdmtypes x).2)
      [PyVal.vint 1, PyVal.vtuple [PyVal.vint 2, PyVal.vint 3]] = [3, 15] := rfl
  have ws_o : dm_write_struct .v3 [.vint 1, .vtuple [.vint 2, .vint 3]] =
      some ((beW .v3 0 ++ beW .v3 2 ++ (beW .v3 0 ++ beW .v3 3) ++ (beW .v3 0 ++ beW .v3 15) ++ [1, 0, 0, 0] ++ (beW .v3 0 ++ beW .v3 2 ++ (beW .v3 0 ++ beW .v3 3) ++ (beW .v3 0 ++ beW .v3 3) ++ [2, 0, 0, 0] ++ [3, 0, 0, 0])), 6) := by
    rw [dm_write_struct.eq_def]
    simp only []
    rw [hfl_o, hmap_o, f3]
    decide
  have eo : encTyped .v3 15 (.vtuple [.vint 1, .vtuple [.vint 2, .vint 3]]) =
      some ((beW .v3 0 ++ beW .v3 2 ++ (beW .v3 0 ++ beW .v3 3) ++ (beW .v3 0 ++ beW .v3 15) ++ [1, 0, 0, 0] ++ (beW .v3 0 ++ beW .v3 2 ++ (beW .v3 0 ++ beW .v3 3) ++ (beW .v3 0 ++ beW .v3 3) ++ [2, 0, 0, 0] ++ [3, 0, 0, 0])), 6) := by
    rw [encTyped.eq_def]
    norm_num
    exact ws_o
  refine ⟨rfl, ?_, ?_, ?_⟩
  · have he6 : encTyped .v3 6 (.vother 1065353216) = some ([0, 0, 128, 63], 0) := by
      rw [encTyped.eq_def]; decide
    unfold dm_write_tag_data
    simp only []
    rw [show (get_structdmtypes (PyVal.vother 1065353216)).2 = 6 from rfl]
    rw [he6]
    decide
  · unfold dm_write_tag_data
    simp only []
    rw [show (get_structdmtypes (PyVal.vtuple
      [PyVal.vint 1, PyVal.vtuple [PyVal.vint 2, PyVal.vint 3]])).2 = 15 from rfl]
    rw [eo]
    decide
  · rfl

/-- C7 (amended): `get_structdmtypes_for_python_typeorobject` never returns
dm type 0, so the `if not data_type: raise Exception("Unsupported type")`
guard in `dm_write_tag_data` is unreachable; a value with no registry
mapping falls back (with only a logged warning) to dm type 6, and the
leaf writer then commits its 32-bit pattern under type 6 — the value is
silently written under a different type rather than rejected. -/
theorem C7_no_unsupported_raise_amended :
    (∀ v : PyVal, (get_structdmtypes v).2 ≠ 0) ∧
    (∀ (ver : Ver) (s : DMStream) (bits : Nat), s.pos = s.data.length → bits < 2 ^ 32 →
      dm_write_tag_data ver s (.vother bits) =
        some ⟨s.data ++ pctBytes ++ beW ver 1 ++ beW ver 6 ++ leBytes 4 bits,
          (s.data ++ pctBytes ++ beW ver 1 ++ beW ver 6 ++ leBytes 4 bits).length⟩) := by
  constructor
  · intro v
    cases v <;> simp only [get_structdmtypes] <;> (try split) <;> decide
  · intro ver s bits hpos hbits
    have hb : (bits : Int) < 2 ^ (8 * 4) := by
      have h32 : ((2 : Int) ^ (8 * 4)) = ((2 ^ 32 : Nat) : Int) := by norm_num
      rw [h32]
      exact_mod_cast hbits
    have hpack : packInt 4 ((bits : Nat) : Int) = leBytes 4 bits := by
      unfold packInt
      rw [Int.emod_eq_of_lt (by positivity) hb]
      simp
    have hdom : inScalarDomain 6 ((bits : Nat) : Int) = true := by
      unfold inScalarDomain
      rw [show get_structchar_for_dmtype 6 = some 'f' from rfl]
      simp only []
      rw [show signedChar 'f' = false from rfl]
      simp only [Bool.false_eq_true, if_false]
      rw [decide_eq_true_eq]
      exact ⟨by positivity, by rw [show calcsizeChar 'f' = 4 from rfl]; exact hb⟩
    have hsd : standard_dm_write 6 ((bits : Nat) : Int) = some (leBytes 4 bits) := by
      unfold standard_dm_write
      rw [show get_structchar_for_dmtype 6 = some 'f' from rfl]
      simp only []
      rw [hdom]
      simp only [reduceIte]
      rw [show calcsizeChar 'f' = 4 from rfl, hpack]
    have he : encTyped ver 6 (.vother bits) = some (leBytes 4 bits, 0) := by
      rw [encTyped.eq_def]
      norm_num
      rw [hsd]
    unfold dm_write_tag_data
    simp only []
    rw [show (get_structdmtypes (PyVal.vother bits)).2 = 6 from rfl]
    rw [if_neg (by decide)]
    rw [he]
    simp only []
    rw [tag_data_chain ver s 6 0 (leBytes 4 bits) hpos]

/-- Witness for the amended C7: the unmapped value with pattern 7 has
nonzero dm type and is committed under type 6. -/
theorem C7_witness :
    (get_structdmtypes (.vother 7)).2 ≠ 0 ∧
    dm_write_tag_data .v3 ⟨[], 0⟩ (.vother 7) =
      some ⟨[] ++ pctBytes ++ beW .v3 1 ++ beW .v3 6 ++ leBytes 4 7,
        ([] ++ pctBytes ++ beW .v3 1 ++ beW .v3 6 ++ leBytes 4 7).length⟩ :=
  ⟨C7_no_unsupported_raise_amended.1 (.vother 7),
   C7_no_unsupported_raise_amended.2 .v3 ⟨[], 0⟩ 7 rfl (by norm_num)⟩

/-! ## C8: the 4-field struct fold and the struct round trip -/

/-- Reading a size-width prefix produced by `beW` returns the value. -/
theorem getBytes_front (w : Nat) (a rest : List Nat) (ha : a.length = w) :
    getBytes w (a ++ rest) = some (a, rest) := by
  unfold getBytes
  rw [if_pos (by simp [ha])]
  rw [List.take_left' ha, List.drop_left' ha]

/-- `readBE` inverts `beW` for values below the field capacity. -/
theorem readBE_beW (ver : Ver) (n : Nat) (rest : List Nat)
    (h : n < 256 ^ sizeW ver) :
    readBE (sizeW ver) (beW ver n ++ rest) = some (n, rest) := by
  unfold readBE
  rw [getBytes_front (sizeW ver) _ rest (beW_length ver n)]
  simp only [Option.map_some']
  rw [beW, beVal_beBytes (sizeW ver) n h]

/-- The struct-types loop inverts the per-field words written by
`dm_write_struct_types`. -/
theorem structTypesLoop_roundtrip (ver : Ver) (ids : List Nat)
    (h : ∀ id ∈ ids, id ≠ 15 ∧ id < 256 ^ sizeW ver) (rest : List Nat) :
    readStructTypesLoop ver ids.length
      ((ids.flatMap (fun t => beW ver 0 ++ beW ver t)) ++ rest) = some (ids, rest) := by
  induction ids with
  | nil => simp [readStructTypesLoop]
  | cons t ts ih =>
      simp only [List.flatMap_cons, List.length_cons, List.append_assoc]
      unfold readStructTypesLoop
      rw [readBE_beW ver 0 _ (by positivity)]
      try simp only []
      rw [readBE_beW ver t _ (h t (List.mem_cons_self _ _)).2]
      try simp only []
      rw [if_pos ⟨by trivial, (h t (List.mem_cons_self _ _)).1⟩]
      have := ih (fun x hx => h x (List.mem_cons_of_mem _ hx))
      simp only [List.append_assoc] at this
      rw [this]

/-- `dm_read_struct_types` inverts `dm_write_struct_types`. -/
theorem structTypes_roundtrip (ver : Ver) (ids : List Nat)
    (h : ∀ id ∈ ids, id ≠ 15 ∧ id < 256 ^ sizeW ver)
    (hk : ids.length < 256 ^ sizeW ver) (rest : List Nat) :
    dm_read_struct_types ver ((dm_write_struct_types ver ids).1 ++ rest) =
      some (ids, 2 + 2 * ids.length, rest) := by
  unfold dm_write_struct_types dm_read_struct_types
  simp only [List.append_assoc]
  rw [readBE_beW ver 0 _ (by positivity)]
  simp only []
  rw [readBE_beW ver ids.length _ hk]
  try simp only []
  simp only [if_true]
  rw [structTypesLoop_roundtrip ver ids h rest]

/-- The dm type chosen for a Python int is long (3) or int64 (11). -/
theorem int_id_cases (v : Int) :
    (get_structdmtypes (.vint v)).2 = 3 ∨ (get_structdmtypes (.vint v)).2 = 11 := by
  simp only [get_structdmtypes]
  split
  · right; rfl
  · left; rfl

/-- Write/read agreement for a single Python int field through the
dispatch tables: the value is encoded at the dm type chosen by
`get_structdmtypes` and decoded back exactly, provided it fits in a
signed 64-bit word. -/
theorem int_enc_dec (ver : Ver) (v : Int) (h0 : -(2 : Int) ^ 63 ≤ v)
    (h1 : v < 2 ^ 63) :
    ∃ bs : List Nat,
      encTyped ver (get_structdmtypes (.vint v)).2 (.vint v) = some (bs, 0) ∧
      ∀ rest, dmReadTypedBase ver (get_structdmtypes (.vint v)).2 (bs ++ rest) =
        some (.rint v, 0, rest) := by
  by_cases hc : ¬ (-(2 ^ 31) < v ∧ v < 2 ^ 31 - 1)
  · have hid : (get_structdmtypes (.vint v)).2 = 11 := by
      simp only [get_structdmtypes]
      rw [if_pos hc]
    have hdom : inScalarDomain 11 v = true := by
      unfold inScalarDomain
      rw [show get_structchar_for_dmtype 11 = some 'q' from rfl]
      simp only []
      rw [show signedChar 'q' = true from rfl]
      simp only [reduceIte]
      rw [decide_eq_true_eq]
      rw [show calcsizeChar 'q' = 8 from rfl]
      norm_num
      exact ⟨h0, h1⟩
    have hw : standard_dm_write 11 v = some (packInt 8 v) := by
      unfold standard_dm_write
      rw [show get_structchar_for_dmtype 11 = some 'q' from rfl]
      simp only []
      rw [hdom]
      simp only [reduceIte]
      rfl
    refine ⟨packInt 8 v, ?_, ?_⟩
    · rw [hid, encTyped.eq_def]
      norm_num
      rw [hw]
    · intro rest
      rw [hid]
      unfold dmReadTypedBase
      norm_num
      rw [standard_roundtrip 11 'q' rfl (by decide) v rest _ hdom hw]
  · have hid : (get_structdmtypes (.vint v)).2 = 3 := by
      simp only [get_structdmtypes]
      rw [if_neg hc]
    push_neg at hc
    have hdom : inScalarDomain 3 v = true := by
      unfold inScalarDomain
      rw [show get_structchar_for_dmtype 3 = some 'i' from rfl]
      simp only []
      rw [show signedChar 'i' = true from rfl]
      simp only [reduceIte]
      rw [decide_eq_true_eq]
      rw [show calcsizeChar 'i' = 4 from rfl]
      norm_num
      constructor
      · linarith [hc.1]
      · linarith [hc.2]
    have hw : standard_dm_write 3 v = some (packInt 4 v) := by
      unfold standard_dm_write
      rw [show get_structchar_for_dmtype 3 = some 'i' from rfl]
      simp only []
      rw [hdom]
      simp only [reduceIte]
      rfl
    refine ⟨packInt 4 v, ?_, ?_⟩
    · rw [hid, encTyped.eq_def]
      norm_num
      rw [hw]
    · intro rest
      rw [hid]
      unfold dmReadTypedBase
      norm_num
      rw [standard_roundtrip 3 'i' rfl (by decide) v rest _ hdom hw]

/-- Write/read agreement for a list of Python int fields. -/
theorem int_fields_roundtrip (ver : Ver) (vs : List Int)
    (h : ∀ v ∈ vs, -(2 : Int) ^ 63 ≤ v ∧ v < 2 ^ 63) :
    ∃ body : List Nat,
      encFields ver (vs.map (fun v => (get_structdmtypes (.vint v)).2))
        (vs.map .vint) = some body ∧
      ∀ rest, readFieldsBase ver (vs.map (fun v => (get_structdmtypes (.vint v)).2))
        (body ++ rest) = some (vs.map .rint, rest) := by
  induction vs with
  | nil =>
      refine ⟨[], ?_, fun rest => by simp [readFieldsBase]⟩
      simp only [List.map_nil]
      rw [encFields.eq_def]
  | cons v vs ih =>
      obtain ⟨bs, henc, hdec⟩ := int_enc_dec ver v
        (h v (List.mem_cons_self _ _)).1 (h v (List.mem_cons_self _ _)).2
      obtain ⟨body, hencs, hdecs⟩ := ih (fun w hw => h w (List.mem_cons_of_mem _ hw))
      refine ⟨bs ++ body, ?_, ?_⟩
      · simp only [List.map_cons]
        rw [encFields.eq_def]
        simp only []
        rw [henc, hencs]
      · intro rest
        simp only [List.map_cons, readFieldsBase]
        rw [List.append_assoc, hdec (body ++ rest)]
        simp only []
        rw [hdecs rest]

/-- Int fields are never flattened by `dm_write_struct`. -/
theorem flatten_int (vs : List Int) :
    flattenFields (vs.map .vint) = vs.map .vint := by
  unfold flattenFields
  split
  · rename_i hcond
    obtain ⟨hlen, hall⟩ := hcond
    cases vs with
    | nil => simp at hlen
    | cons a t => simp [isTupleOrList] at hall
  · rfl

/-- The struct writer and reader agree on lists of Python ints, with the
reader applying the `fold4` regrouping. -/
theorem int_struct_roundtrip (ver : Ver) (vs : List Int)
    (h : ∀ v ∈ vs, -(2 : Int) ^ 63 ≤ v ∧ v < 2 ^ 63)
    (hk : vs.length < 256 ^ sizeW ver) :
    ∃ body : List Nat,
      dm_write_struct ver (vs.map .vint) = some (body, 2 + 2 * vs.length) ∧
      ∀ rest, dm_read_struct ver (body ++ rest) =
        some (.rtuple (fold4 (vs.map .rint)), 2 + 2 * vs.length, rest) := by
  obtain ⟨fieldsB, hencF, hdecF⟩ := int_fields_roundtrip ver vs h
  have hmap : (vs.map PyVal.vint).map (fun x => (get_structdmtypes x).2) =
      vs.map (fun v => (get_structdmtypes (.vint v)).2) := by
    rw [List.map_map]
    rfl
  have hids : ∀ id ∈ vs.map (fun v => (get_structdmtypes (.vint v)).2),
      id ≠ 15 ∧ id < 256 ^ sizeW ver := by
    intro id hid
    obtain ⟨v, -, hv⟩ := List.mem_map.1 hid
    have hcap : (11 : Nat) < 256 ^ sizeW ver := by
      calc (11 : Nat) < 256 ^ 4 := by norm_num
        _ ≤ 256 ^ sizeW ver := by
          apply Nat.pow_le_pow_right (by norm_num)
          cases ver <;> simp [sizeW]
    rcases int_id_cases v with h3 | h11
    · rw [← hv, h3]
      exact ⟨by norm_num, by omega⟩
    · rw [← hv, h11]
      exact ⟨by norm_num, hcap⟩
  have hklen : (vs.map (fun v => (get_structdmtypes (.vint v)).2)).length <
      256 ^ sizeW ver := by
    rw [List.length_map]
    exact hk
  refine ⟨(dm_write_struct_types ver
      (vs.map (fun v => (get_structdmtypes (.vint v)).2))).1 ++ fieldsB, ?_, ?_⟩
  · rw [dm_write_struct.eq_def]
    simp only []
    rw [flatten_int, hmap, hencF]
    simp only [dm_write_struct_types, List.length_map]
  · intro rest
    unfold dm_read_struct
    rw [List.append_assoc,
      structTypes_roundtrip ver _ hids hklen (fieldsB ++ rest)]
    simp only []
    rw [hdecF rest]
    simp only [List.length_map]

/-- C8: `dm_read_struct` folds a struct that decodes to exactly 4 values
into the nested pair `((v0, v1), (v2, v3))` and leaves any other arity
flat; `dm_write_struct` flattens the nested pair `((a, b), (c, d))` into
the flat 4-field struct; consequently, writing a list of int fields and
reading the bytes back yields exactly the `fold4` regrouping of the
original values — the original nested pair in the 4-field case. -/
theorem C8_struct_fold_roundtrip :
    (∀ a b c d : RVal, fold4 [a, b, c, d] = [.rtuple [a, b], .rtuple [c, d]]) ∧
    (∀ fields : List RVal, fields.length ≠ 4 → fold4 fields = fields) ∧
    (∀ a b c d : PyVal, flattenFields [.vtuple [a, b], .vtuple [c, d]] = [a, b, c, d]) ∧
    (∀ (ver : Ver) (a b c d : Int),
      dm_write_struct ver [.vtuple [.vint a, .vint b], .vtuple [.vint c, .vint d]] =
        dm_write_struct ver [.vint a, .vint b, .vint c, .vint d]) ∧
    (∀ (ver : Ver) (vs : List Int), (∀ v ∈ vs, -(2 : Int) ^ 63 ≤ v ∧ v < 2 ^ 63) →
      vs.length < 256 ^ sizeW ver →
      ∃ body : List Nat,
        dm_write_struct ver (vs.map .vint) = some (body, 2 + 2 * vs.length) ∧
        ∀ rest, dm_read_struct ver (body ++ rest) =
          some (.rtuple (fold4 (vs.map .rint)), 2 + 2 * vs.length, rest)) := by
  refine ⟨fun a b c d => rfl, ?_, fun a b c d => rfl, ?_, int_struct_roundtrip⟩
  · intro fields hne
    unfold fold4
    match fields, hne with
    | [], _ => rfl
    | [a], _ => rfl
    | [a, b], _ => rfl
    | [a, b, c], _ => rfl
    | [a, b, c, d], hne => exact absurd rfl hne
    | a :: b :: c :: d :: e :: t, _ => rfl
  · intro ver a b c d
    rw [dm_write_struct.eq_def, dm_write_struct.eq_def]
    simp only []
    rw [show flattenFields [PyVal.vtuple [PyVal.vint a, PyVal.vint b],
        PyVal.vtuple [PyVal.vint c, PyVal.vint d]] =
      [PyVal.vint a, PyVal.vint b, PyVal.vint c, PyVal.vint d] from rfl]
    rw [show flattenFields [PyVal.vint a, PyVal.vint b, PyVal.vint c, PyVal.vint d] =
      [PyVal.vint a, PyVal.vint b, PyVal.vint c, PyVal.vint d] from rfl]

/-- Witness for C8: the 4-field int struct `(1, 2, 3, 4)` writes
successfully and reads back as `((1, 2), (3, 4))`. -/
theorem C8_witness :
    ∃ body : List Nat,
      dm_write_struct .v3 (([1, 2, 3, 4] : List Int).map .vint) =
        some (body, 2 + 2 * ([1, 2, 3, 4] : List Int).length) ∧
      ∀ rest, dm_read_struct .v3 (body ++ rest) =
        some (.rtuple (fold4 (([1, 2, 3, 4] : List Int).map .rint)),
          2 + 2 * ([1, 2, 3, 4] : List Int).length, rest) :=
  C8_struct_fold_roundtrip.2.2.2.2 .v3 [1, 2, 3, 4] (by decide) (by decide)

/-! ## C9: the name-based string coercion of `dm_read_tag_entry` -/

/-- Whether the byte list starts with the Latin-1 codes of `"Name"`. -/
def hasNameAt (l : List Nat) : Bool :=
  match l with
  | a :: b :: c :: d :: _ => a = 78 && b = 97 && c = 109 && d = 101
  | _ => false

/-- `re.match('.*Name', name)` on the Latin-1 codes of `name`: the match
succeeds exactly when `"Name"` occurs at some position all of whose
preceding characters are not newlines (`.` does not match a newline, and
`re.match` anchors only at the start). -/
def reMatchDotStarName : List Nat → Bool
  | [] => false
  | c :: rest =>
      if hasNameAt (c :: rest) then true
      else if c = 10 then false
      else reMatchDotStarName rest

/-- Python `len` on a decoded tag value; `none` when the value has no
`__len__` (ints, floats, bools and `StructArray`). -/
def lenOfRVal : RVal → Option Nat
  | .rint _ => none
  | .rfloat _ => none
  | .rbool _ => none
  | .rstructArray _ _ => none
  | .rarray _ elems => some elems.length
  | .rstr16 raw => some (raw.length / 2)
  | .rtuple items => some items.length
  | .rstr codes => some codes.length
  | .rdict entries => some entries.length
  | .rlist items => some items.length

/-- The int value `chr` is applied to for an element of a coerced tuple
(`bool` is an `int` in Python); `none` for elements that raise. -/
def intCodeOf : RVal → Option Int
  | .rint v => some v
  | .rbool b => some (if b then 1 else 0)
  | _ => none

/-- The body of the coercion (`''.join(chr(x) for x in arr)` when `arr[0]`
is an int, `''.join(arr)` when it is a str): int arrays and int-led tuples
become strings of their codes (`chr` raises outside `[0, 0x110000)`,
embedded as `none`); float arrays, float- or tuple-led tuples, and
strings are unchanged (joining the characters of a str is the identity). -/
def coerceValue (arr : RVal) : Option RVal :=
  match arr with
  | .rarray c elems =>
      if floatChar c then some (.rarray c elems)
      else if elems.all (fun e => 0 ≤ e && e < 1114112) then
        some (.rstr (elems.map Int.toNat))
      else none
  | .rtuple items =>
      match items with
      | .rint _ :: _ | .rbool _ :: _ =>
          (match items.mapM intCodeOf with
           | none => none
           | some codes =>
               if codes.all (fun e => 0 ≤ e && e < 1114112) then
                 some (.rstr (codes.map Int.toNat))
               else none)
      | _ => some (.rtuple items)
  | other => some other

/-- The coercion step of `dm_read_tag_entry`: applied when the name is
present and non-empty, the value has a `__len__`, the length is positive
and `re.match('.*Name', name)` succeeds. -/
def maybeCoerce (name : Option (List Nat)) (arr : RVal) : Option RVal :=
  match name with
  | none => some arr
  | some nm =>
      if nm.isEmpty then some arr
      else
        match lenOfRVal arr with
        | none => some arr
        | some n =>
            if n = 0 then some arr
            else if reMatchDotStarName nm then coerceValue arr
            else some arr

mutual

/-- `dm_read_tag_entry`: signed kind byte and 2-byte big-endian name
length, the Latin-1 name bytes, under version 4 a size-width flags word,
then either a data leaf (kind 21, via `dm_read_tag_data` and the name
coercion) or a nested group (kind 20, via `dm_read_tag_root`); any other
kind raises.  The extra `Nat` is recursion fuel for the group nesting. -/
def dm_read_tag_entry (ver : Ver) : Nat → List Nat →
    Option (Option (List Nat) × RVal × List Nat)
  | 0, _ => none
  | fuel + 1, l =>
      match getBytes 1 l with
      | none => none
      | some (db, l1) =>
          match readBE 2 l1 with
          | none => none
          | some (name_len, l2) =>
              match getBytes name_len l2 with
              | none => none
              | some (nameBytes, l3) =>
                  let name : Option (List Nat) :=
                    if name_len ≠ 0 then some nameBytes else none
                  match (if ver = .v4 then readBE (sizeW ver) l3
                         else some (0, l3)) with
                  | none => none
                  | some (_, l4) =>
                      if db = [21] then
                        match dm_read_tag_data ver l4 with
                        | none => none
                        | some (arr, l5) =>
                            match maybeCoerce name arr with
                            | none => none
                            | some arr2 => some (name, arr2, l5)
                      else if db = [20] then
                        match dm_read_tag_root ver fuel l4 with
                        | none => none
                        | some (v, l5) => some (name, v, l5)
                      else none
termination_by structural fuel l => fuel

/-- `dm_read_tag_root`: the `is_dict` byte, the reserved byte, the
size-width entry count, then the entries (a dict asserts every name
present, a list asserts every name absent). -/
def dm_read_tag_root (ver : Ver) : Nat → List Nat → Option (RVal × List Nat)
  | 0, _ => none
  | fuel + 1, l =>
      match getBytes 1 l with
      | none => none
      | some (isd, l1) =>
          match getBytes 1 l1 with
          | none => none
          | some (_, l2) =>
              match readBE (sizeW ver) l2 with
              | none => none
              | some (num_tags, l3) =>
                  if isd = [0] then
                    match readEntriesListF ver fuel num_tags l3 with
                    | none => none
                    | some (items, l4) => some (.rlist items, l4)
                  else
                    match readEntriesDictF ver fuel num_tags l3 with
                    | none => none
                    | some (entries, l4) => some (.rdict entries, l4)
termination_by structural fuel l => fuel

/-- The list-group loop of `dm_read_tag_root`. -/
def readEntriesListF (ver : Ver) : Nat → Nat → List Nat →
    Option (List RVal × List Nat)
  | 0, _, _ => none
  | _ + 1, 0, l => some ([], l)
  | fuel + 1, n + 1, l =>
      match dm_read_tag_entry ver fuel l with
      | none => none
      | some (some _, _, _) => none
      | some (none, v, l1) =>
          match readEntriesListF ver fuel n l1 with
          | none => none
          | some (vs, l2) => some (v :: vs, l2)
termination_by structural fuel n l => fuel

/-- The dict-group loop of `dm_read_tag_root`. -/
def readEntriesDictF (ver : Ver) : Nat → Nat → List Nat →
    Option (List (List Char × RVal) × List Nat)
  | 0, _, _ => none
  | _ + 1, 0, l => some ([], l)
  | fuel + 1, n + 1, l =>
      match dm_read_tag_entry ver fuel l with
      | none => none
      | some (none, _, _) => none
      | some (some nm, v, l1) =>
          match readEntriesDictF ver fuel n l1 with
          | none => none
          | some (entries, l2) => some ((nm.map Char.ofNat, v) :: entries, l2)
termination_by structural fuel n l => fuel

end

/-- `hasNameAt` holds exactly on lists starting with the codes of
`"Name"`. -/
theorem hasNameAt_iff (l : List Nat) : hasNameAt l = true ↔
    ∃ t, l = 78 :: 97 :: 109 :: 101 :: t := by
  rcases l with _ | ⟨a, _ | ⟨b, _ | ⟨c, _ | ⟨d, t⟩⟩⟩⟩ <;>
    simp [hasNameAt] <;> tauto

/-- The regex `.*Name` under `re.match` accepts exactly the names in which
`"Name"` occurs after a newline-free prefix. -/
theorem reMatch_iff (nm : List Nat) : reMatchDotStarName nm = true ↔
    ∃ p q, nm = p ++ [78, 97, 109, 101] ++ q ∧ (10 : Nat) ∉ p := by
  induction nm with
  | nil =>
      constructor
      · intro h
        simp [reMatchDotStarName] at h
      · rintro ⟨p, q, hpq, -⟩
        cases p <;> simp at hpq
  | cons c rest ih =>
      by_cases hstart : hasNameAt (c :: rest) = true
      · obtain ⟨t, ht⟩ := (hasNameAt_iff _).1 hstart
        constructor
        · rintro -
          exact ⟨[], t, by simp [ht], by simp⟩
        · rintro -
          simp [reMatchDotStarName, hstart]
      · by_cases hnl : c = 10
        · subst hnl
          have hL : reMatchDotStarName (10 :: rest) = false := by
            simp [reMatchDotStarName, hstart]
          rw [hL]
          constructor
          · intro h
            cases h
          · rintro ⟨p, q, hpq, hp⟩
            cases p with
            | nil => simp at hpq
            | cons a p2 =>
                simp only [List.cons_append] at hpq
                rw [List.cons.injEq] at hpq
                exact (hp (by rw [hpq.1]; exact List.mem_cons_self _ _)).elim
        · have hL : reMatchDotStarName (c :: rest) = reMatchDotStarName rest := by
            simp [reMatchDotStarName, hstart, hnl]
          rw [hL, ih]
          constructor
          · rintro ⟨p, q, hpq, hp⟩
            refine ⟨c :: p, q, by simp [hpq], ?_⟩
            intro hmem
            rcases List.mem_cons.1 hmem with h | h
            · exact hnl h.symm
            · exact hp h
          · rintro ⟨p, q, hpq, hp⟩
            cases p with
            | nil =>
                exfalso
                apply hstart
                exact (hasNameAt_iff _).2 ⟨q, by simpa using hpq⟩
            | cons a p2 =>
                have h2 : c = a ∧ rest = p2 ++ [78, 97, 109, 101] ++ q := by
                  simpa using hpq
                exact ⟨p2, q, h2.2, fun h => hp (List.mem_cons_of_mem _ h)⟩

/-- C9 (amended): the coercion regex `.*Name` under `re.match` tests for
an occurrence of `"Name"` preceded only by non-newline characters — not
for a trailing `"Name"` suffix; a named leaf whose decoded value has a
positive length is coerced exactly when that test succeeds (int arrays
and int-led tuples become strings of their character codes; float arrays
and strings are left unchanged by the coercion branch), and every leaf
value returned by `dm_read_tag_entry` is the `maybeCoerce` image of the
value `dm_read_tag_data` decoded. -/
theorem C9_name_coercion_amended :
    (∀ nm : List Nat, reMatchDotStarName nm = true ↔
      ∃ p q, nm = p ++ [78, 97, 109, 101] ++ q ∧ (10 : Nat) ∉ p) ∧
    (∀ (nm : List Nat) (arr : RVal), reMatchDotStarName nm = false →
      maybeCoerce (some nm) arr = some arr) ∧
    (∀ (nm : List Nat) (c : Char) (elems : List Int),
      reMatchDotStarName nm = true → floatChar c = false → elems ≠ [] →
      (∀ e ∈ elems, 0 ≤ e ∧ e < 1114112) →
      maybeCoerce (some nm) (.rarray c elems) =
        some (.rstr (elems.map Int.toNat))) ∧
    (∀ (ver : Ver) (fuel : Nat) (l : List Nat) (name : Option (List Nat))
        (v : RVal) (rest : List Nat),
      dm_read_tag_entry ver (fuel + 1) l = some (name, v, rest) →
      (∃ arr l4, dm_read_tag_data ver l4 = some (arr, rest) ∧
        maybeCoerce name arr = some v) ∨
      (∃ g l4, dm_read_tag_root ver fuel l4 = some (g, rest) ∧ v = g)) := by
  refine ⟨reMatch_iff, ?_, ?_, ?_⟩
  · intro nm arr hre
    unfold maybeCoerce
    simp only []
    by_cases he : nm.isEmpty
    · rw [if_pos he]
    · rw [if_neg he]
      cases lenOfRVal arr with
      | none => rfl
      | some n =>
          simp only []
          by_cases hn : n = 0
          · rw [if_pos hn]
          · rw [if_neg hn, hre]
            simp only [Bool.false_eq_true, if_false]
  · intro nm c elems hre hfc hne hrange
    unfold maybeCoerce
    simp only []
    have hempty : nm.isEmpty = false := by
      cases nm with
      | nil => simp [reMatchDotStarName] at hre
      | cons a t => rfl
    rw [hempty]
    simp only [Bool.false_eq_true, if_false, lenOfRVal]
    rw [if_neg (by simpa using hne), hre]
    simp only [if_true]
    unfold coerceValue
    simp only []
    rw [hfc]
    simp only [Bool.false_eq_true, if_false]
    rw [if_pos]
    simp only [List.all_eq_true, Bool.and_eq_true, decide_eq_true_eq]
    intro e he
    exact ⟨by simpa using (hrange e he).1, by simpa using (hrange e he).2⟩
  · intro ver fuel l name v rest h
    unfold dm_read_tag_entry at h
    rcases h1 : getBytes 1 l with _ | ⟨db, l1⟩ <;> rw [h1] at h
    · cases h
    simp only [] at h
    rcases h2 : readBE 2 l1 with _ | ⟨name_len, l2⟩ <;> rw [h2] at h
    · cases h
    simp only [] at h
    rcases h3 : getBytes name_len l2 with _ | ⟨nameBytes, l3⟩ <;> rw [h3] at h
    · cases h
    simp only [] at h
    rcases h4 : (if ver = .v4 then readBE (sizeW ver) l3 else some (0, l3)) with
      _ | ⟨x, l4⟩ <;> rw [h4] at h
    · cases h
    simp only [] at h
    by_cases hdb : db = [21]
    · rw [if_pos hdb] at h
      rcases h5 : dm_read_tag_data ver l4 with _ | ⟨arr, l5⟩ <;> rw [h5] at h
      · cases h
      simp only [] at h
      rcases h6 : maybeCoerce (if name_len ≠ 0 then some nameBytes else none) arr with
        _ | arr2 <;> rw [h6] at h
      · cases h
      simp only [] at h
      injection h with h
      rw [Prod.mk.injEq] at h
      obtain ⟨hname, h⟩ := h
      rw [Prod.mk.injEq] at h
      obtain ⟨hv, hrest⟩ := h
      left
      exact ⟨arr, l4, by rw [h5, hrest], by rw [hname, hv] at h6; exact h6⟩
    · rw [if_neg hdb] at h
      by_cases hdb2 : db = [20]
      · rw [if_pos hdb2] at h
        rcases h5 : dm_read_tag_root ver fuel l4 with _ | ⟨g, l5⟩ <;> rw [h5] at h
        · cases h
        simp only [] at h
        injection h with h
        rw [Prod.mk.injEq] at h
        obtain ⟨hname, h⟩ := h
        rw [Prod.mk.injEq] at h
        obtain ⟨hv, hrest⟩ := h
        right
        exact ⟨g, l4, by rw [h5, hrest], hv.symm⟩
      · rw [if_neg hdb2] at h
        cases h

/-- C9 counterexample: the entry named `"NameX"` — which does not end in
`"Name"` — has its one-element `'H'` array payload coerced to the string
`"A"`, while the entry named `"A\nName"` — which does end in `"Name"` —
is not coerced, because `.*` cannot cross the newline. -/
theorem C9_counterexample :
    (dm_read_tag_entry .v3 1 [21, 0, 5, 78, 97, 109, 101, 88, 37, 37, 37, 37,
        0, 0, 0, 3, 0, 0, 0, 20, 0, 0, 0, 4, 0, 0, 0, 1, 65, 0] =
      some (some [78, 97, 109, 101, 88], .rstr [65], []) ∧
     ([78, 97, 109, 101, 88] : List Nat).drop 1 ≠ [78, 97, 109, 101]) ∧
    (dm_read_tag_entry .v3 1 [21, 0, 6, 65, 10, 78, 97, 109, 101, 37, 37, 37, 37,
        0, 0, 0, 3, 0, 0, 0, 20, 0, 0, 0, 4, 0, 0, 0, 1, 65, 0] =
      some (some [65, 10, 78, 97, 109, 101], .rarray 'H' [65], []) ∧
     ([65, 10, 78, 97, 109, 101] : List Nat).drop 2 = [78, 97, 109, 101]) :=
  ⟨⟨rfl, by decide⟩, rfl, rfl⟩

/-- Witness for the amended C9: the non-matching name `"X"` leaves an
array unchanged; the matching name `"NameX"` coerces it; and a concrete
leaf-entry read passes through `maybeCoerce`. -/
theorem C9_witness :
    maybeCoerce (some [88]) (.rarray 'H' [65]) = some (.rarray 'H' [65]) ∧
    maybeCoerce (some [78, 97, 109, 101, 88]) (.rarray 'H' [65]) =
      some (.rstr [65]) ∧
    ((∃ arr l4, dm_read_tag_data .v3 l4 = some (arr, ([] : List Nat)) ∧
        maybeCoerce (some [88, 88]) arr = some (.rarray 'H' [65])) ∨
     (∃ g l4, dm_read_tag_root .v3 0 l4 = some (g, ([] : List Nat)) ∧
        RVal.rarray 'H' [65] = g)) :=
  ⟨C9_name_coercion_amended.2.1 [88] (.rarray 'H' [65]) (by decide),
   C9_name_coercion_amended.2.2.1 [78, 97, 109, 101, 88] 'H' [65] (by decide)
     (by decide) (by simp) (by decide),
   C9_name_coercion_amended.2.2.2 .v3 0 [21, 0, 2, 88, 88, 37, 37, 37, 37,
     0, 0, 0, 3, 0, 0, 0, 20, 0, 0, 0, 4, 0, 0, 0, 1, 65, 0]
     (some [88, 88]) (.rarray 'H' [65]) [] rfl⟩

/-! ## C10: end-of-stream restoration after backpatching -/

/-- Tail of `dm_write_header` after the version/placeholder/endianness
words: the root group is written, the file size is backpatched at offset
4 (reached as `start - c` with `c = 4 + size_width`), and the two zero
sentinels are appended at end-of-stream. -/
theorem header_tail (ver : Ver) (vnum c : Nat) (s s' : DMStream) (v : PyVal)
    (hc : c = 4 + sizeW ver) (hpos : s.pos = s.data.length)
    (hw : (match dm_write_tag_root ver
            (fwrite s (beBytes 4 vnum ++ beW ver 0 ++ beBytes 4 1)) v with
           | none => none
           | some s2 =>
               some (fwrite (fseek (fwrite (fseek s2
                   ((fwrite s (beBytes 4 vnum ++ beW ver 0 ++ beBytes 4 1)).pos - c))
                   (beW ver (s2.pos -
                     (fwrite s (beBytes 4 vnum ++ beW ver 0 ++ beBytes 4 1)).pos + 4)))
                   s2.pos) (beBytes 4 0 ++ beBytes 4 0))) = some s') :
    (∃ bs, s'.data = s.data ++ bs) ∧ s'.pos = s'.data.length := by
  rcases hr : dm_write_tag_root ver
      (fwrite s (beBytes 4 vnum ++ beW ver 0 ++ beBytes 4 1)) v with _ | s2
  · rw [hr] at hw
    cases hw
  · rw [hr] at hw
    simp only [] at hw
    injection hw with hw
    generalize s2.pos -
      (fwrite s (beBytes 4 vnum ++ beW ver 0 ++ beBytes 4 1)).pos + 4 = X at hw
    have hpos1 : (fwrite s (beBytes 4 vnum ++ beW ver 0 ++ beBytes 4 1)).pos =
        (fwrite s (beBytes 4 vnum ++ beW ver 0 ++ beBytes 4 1)).data.length := by
      rw [fwrite_append s _ hpos]
      simp
    obtain ⟨bs, hd2, hp2⟩ :=
      (write_tree_spec (sizeOf v) v (le_refl _)).1 ver _ s2 hpos1 hr
    rw [fwrite_append s _ hpos] at hd2
    simp only [] at hd2
    have htgt : (fwrite s (beBytes 4 vnum ++ beW ver 0 ++ beBytes 4 1)).pos - c =
        (s.data ++ beBytes 4 vnum).length := by
      rw [fwrite_append s _ hpos, hc]
      simp
      try omega
    have hseek1 : fseek s2
        ((fwrite s (beBytes 4 vnum ++ beW ver 0 ++ beBytes 4 1)).pos - c) =
        ⟨(s.data ++ beBytes 4 vnum) ++ beW ver 0 ++ (beBytes 4 1 ++ bs),
          (s.data ++ beBytes 4 vnum).length⟩ := by
      unfold fseek
      rw [htgt, hd2]
      congr 1
      simp [List.append_assoc]
    rw [hseek1, fwrite_patch (s.data ++ beBytes 4 vnum) (beW ver 0)
      (beBytes 4 1 ++ bs) (beW ver X) (by simp)] at hw
    have hlenD : ((s.data ++ beBytes 4 vnum) ++ beW ver X ++
        (beBytes 4 1 ++ bs)).length = s2.pos := by
      rw [hp2, hd2]
      simp
      try omega
    rw [show fseek ⟨(s.data ++ beBytes 4 vnum) ++ beW ver X ++ (beBytes 4 1 ++ bs),
        (s.data ++ beBytes 4 vnum).length + (beW ver X).length⟩ s2.pos =
      ⟨(s.data ++ beBytes 4 vnum) ++ beW ver X ++ (beBytes 4 1 ++ bs), s2.pos⟩
      from rfl] at hw
    rw [fwrite_append ⟨(s.data ++ beBytes 4 vnum) ++ beW ver X ++ (beBytes 4 1 ++ bs),
      s2.pos⟩ (beBytes 4 0 ++ beBytes 4 0) hlenD.symm] at hw
    rw [← hw]
    constructor
    · refine ⟨beBytes 4 vnum ++ beW ver X ++ (beBytes 4 1 ++ bs) ++
        (beBytes 4 0 ++ beBytes 4 0), ?_⟩
      simp [List.append_assoc]
    · simp
      try omega

/-- C10: each backpatching writer — `dm_write_tag_data`,
`dm_write_tag_entry` and `dm_write_header` — leaves the stream positioned
at end-of-stream after a successful write from an end-positioned stream,
having only appended bytes, so sibling writes append after all previously
written bytes despite the intervening seek-backs. -/
theorem C10_position_restored :
    (∀ (ver : Ver) (s : DMStream) (v : PyVal) (s' : DMStream),
      s.pos = s.data.length → dm_write_tag_data ver s v = some s' →
      (∃ bs, s'.data = s.data ++ bs) ∧ s'.pos = s'.data.length) ∧
    (∀ (ver : Ver) (s : DMStream) (v : PyVal) (name : Option String) (s' : DMStream),
      s.pos = s.data.length → dm_write_tag_entry ver s v name = some s' →
      (∃ bs, s'.data = s.data ++ bs) ∧ s'.pos = s'.data.length) ∧
    (∀ (fv : Nat) (s : DMStream) (v : PyVal) (s' : DMStream),
      s.pos = s.data.length → dm_write_header fv s v = some s' →
      (∃ bs, s'.data = s.data ++ bs) ∧ s'.pos = s'.data.length) := by
  refine ⟨?_, ?_, ?_⟩
  · intro ver s v s' hpos hw
    obtain ⟨ph, -, hd, hp⟩ := dm_write_tag_data_spec ver s v s' hpos hw
    exact ⟨⟨pctBytes ++ beW ver (ph.2 + 1) ++ beW ver (get_structdmtypes v).2 ++ ph.1,
      by rw [hd]; simp [List.append_assoc]⟩, hp⟩
  · intro ver s v name s' hpos hw
    obtain ⟨nb, body, hd, hp⟩ :=
      (write_tree_spec (sizeOf v) v (le_refl _)).2 ver s s' name hpos hw
    exact ⟨⟨_, hd⟩, hp⟩
  · intro fv s v s' hpos hw
    unfold dm_write_header at hw
    simp only [] at hw
    by_cases hfv : fv = 4
    · simp only [hfv, reduceIte] at hw
      exact header_tail .v4 4 12 s s' v rfl hpos hw
    · simp only [hfv, reduceIte] at hw
      exact header_tail .v3 3 8 s s' v rfl hpos hw

/-- Witness for C10: concrete leaf, version-4 entry and header writes all
end positioned at end-of-stream with the input data as a prefix. -/
theorem C10_witness :
    ((∃ bs, ([37, 37, 37, 37, 0, 0, 0, 1, 0, 0, 0, 3, 5, 0, 0, 0] : List Nat) =
        [] ++ bs) ∧
      (16 : Nat) = ([37, 37, 37, 37, 0, 0, 0, 1, 0, 0, 0, 3, 5, 0, 0, 0] : List Nat).length) ∧
    ((∃ bs, ([21, 0, 0, 0, 0, 0, 0, 0, 0, 0, 24, 37, 37, 37, 37, 0, 0, 0, 0, 0, 0, 0, 1,
        0, 0, 0, 0, 0, 0, 0, 3, 5, 0, 0, 0] : List Nat) = [] ++ bs) ∧
      (35 : Nat) = ([21, 0, 0, 0, 0, 0, 0, 0, 0, 0, 24, 37, 37, 37, 37, 0, 0, 0, 0, 0, 0,
        0, 1, 0, 0, 0, 0, 0, 0, 0, 3, 5, 0, 0, 0] : List Nat).length) ∧
    ((∃ bs, ([0, 0, 0, 3, 0, 0, 0, 10, 0, 0, 0, 1, 0, 0, 0, 0, 0, 0, 0, 0, 0, 0, 0, 0,
        0, 0] : List Nat) = [] ++ bs) ∧
      (26 : Nat) = ([0, 0, 0, 3, 0, 0, 0, 10, 0, 0, 0, 1, 0, 0, 0, 0, 0, 0, 0, 0, 0, 0,
        0, 0, 0, 0] : List Nat).length) := by
  have he3 : encTyped .v3 3 (.vint 5) = some ([5, 0, 0, 0], 0) := by
    rw [encTyped.eq_def]; decide
  have he4 : encTyped .v4 3 (.vint 5) = some ([5, 0, 0, 0], 0) := by
    rw [encTyped.eq_def]; decide
  have hw1 : dm_write_tag_data .v3 ⟨[], 0⟩ (.vint 5) =
      some ⟨[37, 37, 37, 37, 0, 0, 0, 1, 0, 0, 0, 3, 5, 0, 0, 0], 16⟩ := by
    unfold dm_write_tag_data
    simp only []
    rw [show (get_structdmtypes (PyVal.vint 5)).2 = 3 from rfl]
    rw [he3]
    decide
  have hw2 : dm_write_tag_entry .v4 ⟨[], 0⟩ (.vint 5) none =
      some ⟨[21, 0, 0, 0, 0, 0, 0, 0, 0, 0, 24, 37, 37, 37, 37, 0, 0, 0, 0, 0, 0, 0, 1,
        0, 0, 0, 0, 0, 0, 0, 3, 5, 0, 0, 0], 35⟩ := by
    rw [dm_write_tag_entry.eq_def]
    simp only []
    unfold dm_write_tag_data
    simp only []
    rw [show (get_structdmtypes (PyVal.vint 5)).2 = 3 from rfl]
    rw [he4]
    decide
  have hentries : writeListEntries .v3 ⟨[0, 0, 0, 3, 0, 0, 0, 0, 0, 0, 0, 1,
      0, 0, 0, 0, 0, 0], 18⟩ [] = some ⟨[0, 0, 0, 3, 0, 0, 0, 0, 0, 0, 0, 1,
      0, 0, 0, 0, 0, 0], 18⟩ := by
    rw [writeListEntries.eq_def]
  have hroot : dm_write_tag_root .v3 ⟨[0, 0, 0, 3, 0, 0, 0, 0, 0, 0, 0, 1], 12⟩
      (.vlist []) = some ⟨[0, 0, 0, 3, 0, 0, 0, 0, 0, 0, 0, 1,
      0, 0, 0, 0, 0, 0], 18⟩ := by
    rw [dm_write_tag_root.eq_def]
    simp only []
    rw [show fwrite ⟨[0, 0, 0, 3, 0, 0, 0, 0, 0, 0, 0, 1], 12⟩
        ([0, 0] ++ beW .v3 (List.filter (fun v : PyVal => !v.isNone) []).length) =
      ⟨[0, 0, 0, 3, 0, 0, 0, 0, 0, 0, 0, 1, 0, 0, 0, 0, 0, 0], 18⟩ from rfl]
    rw [hentries]
  have hw3 : dm_write_header 3 ⟨[], 0⟩ (.vlist []) =
      some ⟨[0, 0, 0, 3, 0, 0, 0, 10, 0, 0, 0, 1, 0, 0, 0, 0, 0, 0, 0, 0, 0, 0, 0, 0,
        0, 0], 26⟩ := by
    unfold dm_write_header
    simp only []
    simp only [show ((3 : Nat) = 4) = False from eq_false (by norm_num), if_false]
    rw [show fwrite ⟨[], 0⟩ (beBytes 4 3 ++ beW .v3 0 ++ beBytes 4 1) =
      ⟨[0, 0, 0, 3, 0, 0, 0, 0, 0, 0, 0, 1], 12⟩ from rfl]
    rw [hroot]
    decide
  exact ⟨C10_position_restored.1 .v3 ⟨[], 0⟩ (.vint 5) _ rfl hw1,
    C10_position_restored.2.1 .v4 ⟨[], 0⟩ (.vint 5) none _ rfl hw2,
    C10_position_restored.2.2 3 ⟨[], 0⟩ (.vlist []) _ rfl hw3⟩

end DM
